import Mathlib

/-!
# Verification of the caminos interconnection-network simulator core

This file gives a shallow embedding, in Lean 4, of the parts of the
`caminos` simulator that the specification talks about, together with
theorems settling the specification's claims against the code.

The embedding covers:
* the iSLIP allocator (`src/allocator/islip.rs`);
* the credit-counter transmission mechanism `SimpleVirtualChannels`
  and its emissor/receptor pair (`src/router/mod.rs`);
* the `TransmissionFromOblivious` mechanism, that is the pair
  `StatusAtServer` / `AgnosticParallelBuffers` (`src/router/mod.rs`);
* the routings `UpDown` and `UpDownDerouting` (`src/routing/updown.rs`);
* focused slices of `Basic::process` (`src/router/basic.rs`): the
  cycle-monotonicity guard, the empty-candidate branch of the routing
  stage, the per-output-port candidate gathering and the token output
  arbiter;
* the Jain fairness index (`src/measures.rs`).

Rust `usize` values are modelled as `Nat` except where the code can
underflow in an observable way; credit counters are modelled as `Int`
so that the non-negativity invariant is a real statement.  Rust panics
and `Result::Err` are both modelled with `Except String`.  Vectors
indexed by client/resource/port/virtual-channel are modelled as total
functions out of `Nat`; the code only ever indexes them inside their
range (out-of-range indexing would be a Rust panic, and the theorems
only deal with in-range states).
-/

namespace Caminos

/-! ## Common data model -/

/-- A phit, the atomic transfer unit.  Of the full Rust `Phit` structure the
claims only need the index inside the packet and the packet size, from which
`is_begin`/`is_end` are derived (`is_begin ⇔ index=0`, `is_end ⇔ index=size-1`). -/
structure Phit where
  index : Nat
  packetSize : Nat
deriving DecidableEq, Repr

/-- `Phit::is_begin`: the phit has index 0 in its packet. -/
def Phit.is_begin (p : Phit) : Bool := p.index == 0

/-- `Phit::is_end`: the phit is the last of its packet. -/
def Phit.is_end (p : Phit) : Bool := p.index + 1 == p.packetSize

/-- `topology::Location`: what lies at the other end of a port. -/
inductive Location where
  | routerPort (router_index : Nat) (router_port : Nat)
  | serverPort (server : Nat)
  | nowhere
deriving DecidableEq, Repr

/-- The queries of the `Topology` trait used by the routings under scrutiny.
`neighbour` returns the location together with the link class. -/
structure Topology where
  ports : Nat → Nat
  neighbour : Nat → Nat → Location × Nat
  up_down_distance : Nat → Nat → Option (Nat × Nat)
  distance : Nat → Nat → Nat

/-- `routing::CandidateEgress` as used by the claims: requested port and
virtual channel, the label, the estimated remaining hops and the
`router_allows` flow-control annotation. -/
structure CandidateEgress where
  port : Nat
  virtual_channel : Nat
  label : Int
  estimated_remaining_hops : Option Nat
  router_allows : Option Bool
deriving DecidableEq, Repr

/-- `CandidateEgress::new(port,virtual_channel)`: label 0, no estimation,
no flow-control annotation. -/
def CandidateEgress.new (port virtual_channel : Nat) : CandidateEgress :=
  { port := port, virtual_channel := virtual_channel, label := 0,
    estimated_remaining_hops := none, router_allows := none }

/-- `routing::RoutingNextCandidates`: the candidate set plus the idempotency
flag returned by `Routing::next`. -/
structure RoutingNextCandidates where
  candidates : List CandidateEgress
  idempotent : Bool
deriving DecidableEq, Repr

/-- The fields of `routing::RoutingInfo` consumed by `UpDownDerouting::next`:
the hop count and the optional stack of visited routers. -/
structure RoutingInfo where
  hops : Nat
  visited_routers : Option (List Nat)
deriving DecidableEq, Repr

/-! ## iSLIP allocator (`src/allocator/islip.rs`) -/

/-- `allocator::Request`: a request of a client for a resource,
with an optional priority. -/
structure Request where
  client : Nat
  resource : Nat
  priority : Option Nat
deriving DecidableEq, Repr

/-- `islip::RoundVec`: a rotating-priority list of requested indices.
`pointer` is the index with the highest priority and `n` the modulus. -/
structure RoundVec where
  pointer : Nat
  requested_indices : List Nat
  n : Nat
deriving DecidableEq, Repr

/-- `RoundVec::new(size)`. -/
def RoundVec.new (size : Nat) : RoundVec :=
  { pointer := 0, requested_indices := [], n := size }

/-- `RoundVec::add(element)`: push an element at the back. -/
def RoundVec.add (rv : RoundVec) (element : Nat) : RoundVec :=
  { rv with requested_indices := rv.requested_indices ++ [element] }

/-- `RoundVec::increment_pointer`: `pointer = (pointer + 1) % n`. -/
def RoundVec.increment_pointer (rv : RoundVec) : RoundVec :=
  { rv with pointer := (rv.pointer + 1) % rv.n }

/-- The sort key used by `RoundVec::sort`: indices below the pointer are
shifted up by the size, so the entry equal to the pointer comes first and
the order wraps around. -/
def RoundVec.sortKey (pointer size k : Nat) : Nat :=
  if k < pointer then k + size else k

/-- `RoundVec::sort`: reorder `requested_indices` by the wrapped key.  The
Rust code uses an unstable sort by key; on valid contents (indices `< n`)
the key is injective, so any correct sort produces the same list. -/
def RoundVec.sort (rv : RoundVec) : RoundVec :=
  let sorted := rv.requested_indices.insertionSort
    (fun a b => RoundVec.sortKey rv.pointer rv.n a ≤ RoundVec.sortKey rv.pointer rv.n b)
  { rv with requested_indices := sorted }

/-- `ISLIPAllocator`: matching state plus the per-client and per-resource
round vectors.  The Rust `Vec`s indexed by client or resource are modelled
as total functions. -/
structure ISLIPAllocator where
  num_clients : Nat
  num_resources : Nat
  num_iterations : Nat
  in_match : Nat → Option Nat
  out_match : Nat → Option Nat
  in_requests : Nat → RoundVec
  out_requests : Nat → RoundVec

/-- Pointwise update of a function-modelled vector. -/
def updateVec {α : Type} (v : Nat → α) (i : Nat) (x : α) : Nat → α :=
  fun j => if j = i then x else v j

/-- `ISLIPAllocator::new` (the part after configuration parsing):
`in_match`/`out_match` reset, one `RoundVec::new(num_resources)` per client
and one `RoundVec::new(num_clients)` per resource. -/
def ISLIPAllocator.new (num_clients num_resources num_iterations : Nat) : ISLIPAllocator :=
  { num_clients := num_clients
    num_resources := num_resources
    num_iterations := num_iterations
    in_match := fun _ => none
    out_match := fun _ => none
    in_requests := fun _ => RoundVec.new num_resources
    out_requests := fun _ => RoundVec.new num_clients }

/-- `ISLIPAllocator::is_valid_request`: client and resource in range. -/
def ISLIPAllocator.is_valid_request (a : ISLIPAllocator) (request : Request) : Bool :=
  !(request.client ≥ a.num_clients || request.resource ≥ a.num_resources)

/-- `ISLIPAllocator::add_request`: panics on an invalid request, otherwise
appends the resource to the client round vector and the client to the
resource round vector. -/
def ISLIPAllocator.add_request (a : ISLIPAllocator) (request : Request) :
    Except String ISLIPAllocator :=
  if !(a.is_valid_request request) then
    .error "The request is not valid"
  else
    .ok { a with
      in_requests := updateVec a.in_requests request.client
        ((a.in_requests request.client).add request.resource)
      out_requests := updateVec a.out_requests request.resource
        ((a.out_requests request.resource).add request.client) }

/-- The grant phase for one resource: `None` when the resource is already
matched or has no requests, otherwise the first client in pointer order
whose `in_match` is free (the Rust loop with `break`). -/
def ISLIPAllocator.grantFor (a : ISLIPAllocator) (resource : Nat) : Option Nat :=
  if (a.out_match resource).isSome || (a.out_requests resource).requested_indices.isEmpty then
    none
  else
    (a.out_requests resource).requested_indices.find? (fun client => (a.in_match client).isNone)

/-- The grant vector of one iSLIP iteration (`grants` in the Rust code),
indexed by resource. -/
def ISLIPAllocator.grants (a : ISLIPAllocator) : Nat → Option Nat :=
  fun resource => if resource < a.num_resources then a.grantFor resource else none

/-- The accept phase for one client: scan its resources in pointer order and
accept the first one whose grant names this client.  On accept: commit the
match, append the granted request (with priority 0), and on iteration 0
advance both pointers with `increment_pointer`. -/
def ISLIPAllocator.acceptClient (grants : Nat → Option Nat) (islip_iter : Nat)
    (st : ISLIPAllocator × List Request) (client : Nat) : ISLIPAllocator × List Request :=
  let a := st.1
  let gr := st.2
  if (a.in_requests client).requested_indices.isEmpty then
    st
  else
    match (a.in_requests client).requested_indices.find?
        (fun resource => grants resource == some client) with
    | none => st
    | some resource =>
      let a' := { a with
        in_match := updateVec a.in_match client (some resource)
        out_match := updateVec a.out_match resource (some client) }
      let gr' := gr ++ [{ client := client, resource := resource, priority := some 0 }]
      let a'' :=
        if islip_iter = 0 then
          { a' with
            in_requests := updateVec a'.in_requests client
              ((a'.in_requests client).increment_pointer)
            out_requests := updateVec a'.out_requests resource
              ((a'.out_requests resource).increment_pointer) }
        else a'
      (a'', gr')

/-- One iSLIP iteration: compute the grant vector, then run the accept
phase over all clients in order. -/
def ISLIPAllocator.iteration (st : ISLIPAllocator × List Request) (islip_iter : Nat) :
    ISLIPAllocator × List Request :=
  let grants := st.1.grants
  (List.range st.1.num_clients).foldl (ISLIPAllocator.acceptClient grants islip_iter) st

/-- The sorting loops opening `perform_allocation`: sort every in-range
round vector. -/
def ISLIPAllocator.sortAll (a : ISLIPAllocator) : ISLIPAllocator :=
  { a with
    in_requests := fun c => if c < a.num_clients then (a.in_requests c).sort else a.in_requests c
    out_requests := fun r => if r < a.num_resources then (a.out_requests r).sort else a.out_requests r }

/-- The reset loops of `perform_allocation`: clear every in-range match. -/
def ISLIPAllocator.resetMatches (a : ISLIPAllocator) : ISLIPAllocator :=
  { a with
    in_match := fun c => if c < a.num_clients then none else a.in_match c
    out_match := fun r => if r < a.num_resources then none else a.out_match r }

/-- The clearing loops closing `perform_allocation`: empty every in-range
request list. -/
def ISLIPAllocator.clearRequests (a : ISLIPAllocator) : ISLIPAllocator :=
  { a with
    in_requests := fun c => if c < a.num_clients then
        { a.in_requests c with requested_indices := [] } else a.in_requests c
    out_requests := fun r => if r < a.num_resources then
        { a.out_requests r with requested_indices := [] } else a.out_requests r }

/-- `ISLIPAllocator::perform_allocation`: sort all round vectors, reset the
matches, run `num_iterations` iterations of grant/accept, clear the request
lists, and return the granted requests. -/
def ISLIPAllocator.perform_allocation (a : ISLIPAllocator) :
    List Request × ISLIPAllocator :=
  let a2 := a.sortAll.resetMatches
  let sr := (List.range a2.num_iterations).foldl ISLIPAllocator.iteration (a2, [])
  (sr.2, sr.1.clearRequests)

/-- The pair `(c, r)` occurs among a list of requests. -/
def RequestedIn (requests : List Request) (c r : Nat) : Prop :=
  ∃ req ∈ requests, req.client = c ∧ req.resource = r

/-- Fold a list of requests through `add_request`, propagating the panic. -/
def ISLIPAllocator.addAll (a : ISLIPAllocator) (requests : List Request) :
    Except String ISLIPAllocator :=
  requests.foldlM ISLIPAllocator.add_request a

/-! ## Credit-counter links (`src/router/mod.rs`, `SimpleVirtualChannels`) -/

/-- `CreditCounterVector`: the emissor status of a `SimpleVirtualChannels`
link.  `neighbour_credits` (a `Vec<usize>` in Rust, one counter per virtual
channel) is modelled as `Nat → Int` so that non-negativity is a statement
and not a typing artifact; the Rust code would underflow below zero. -/
structure CreditCounterVector where
  neighbour_credits : Nat → Int
  last_transmission : Nat
  flit_size : Nat

/-- `CreditCounterVector::acknowledge` with an `AckPhitClear(vc)` message:
increment the credit of that virtual channel. -/
def CreditCounterVector.acknowledge (s : CreditCounterVector) (virtual_channel : Nat) :
    CreditCounterVector :=
  { s with neighbour_credits :=
      updateVec s.neighbour_credits virtual_channel (s.neighbour_credits virtual_channel + 1) }

/-- `CreditCounterVector::notify_outcoming_phit`: decrement the credit and
record the transmission cycle. -/
def CreditCounterVector.notify_outcoming_phit (s : CreditCounterVector)
    (virtual_channel : Nat) (cycle : Nat) : CreditCounterVector :=
  { s with
    neighbour_credits :=
      updateVec s.neighbour_credits virtual_channel (s.neighbour_credits virtual_channel - 1)
    last_transmission := cycle }

/-- `CreditCounterVector::can_transmit`: a head phit needs `flit_size`
credits, any other phit needs 1. -/
def CreditCounterVector.can_transmit (s : CreditCounterVector) (phit : Phit)
    (virtual_channel : Nat) : Bool :=
  let necessary_credits : Nat := if phit.is_begin then s.flit_size else 1
  s.neighbour_credits virtual_channel ≥ (necessary_credits : Int)

/-- `ParallelBuffers` restricted to what `SimpleVirtualChannels` exercises in
the claims: one FIFO of phits per virtual channel.  (The random choice for
phits arriving without a virtual channel is not used on router-to-router
links, where the sender has already fixed the channel.) -/
structure ParallelBuffers where
  buffers : Nat → List Phit

/-- `ParallelBuffers::insert` for a phit whose virtual channel is already
selected: push at the back of that channel's buffer. -/
def ParallelBuffers.insert (r : ParallelBuffers) (phit : Phit) (virtual_channel : Nat) :
    ParallelBuffers :=
  { buffers := updateVec r.buffers virtual_channel (r.buffers virtual_channel ++ [phit]) }

/-- `ParallelBuffers::extract`: pop the front phit of the channel and emit an
`AckPhitClear` for it; error when the buffer is empty. -/
def ParallelBuffers.extract (r : ParallelBuffers) (virtual_channel : Nat) :
    Except String (Phit × Nat × ParallelBuffers) :=
  match r.buffers virtual_channel with
  | [] => .error "undetermined"
  | phit :: rest =>
    .ok (phit, virtual_channel, { buffers := updateVec r.buffers virtual_channel rest })

/-- One directed link endpoint pair built by `SimpleVirtualChannels`. -/
structure LinkState where
  status : CreditCounterVector
  space : ParallelBuffers

/-- `SimpleVirtualChannels::new_status_at_emissor` paired with
`new_space_at_receptor`: all credits at `buffer_size`, all buffers empty. -/
def SimpleVirtualChannels.newLink (buffer_size flit_size : Nat) : LinkState :=
  { status :=
      { neighbour_credits := fun _ => (buffer_size : Int)
        last_transmission := 0
        flit_size := flit_size }
    space := { buffers := fun _ => [] } }

/-- The step relation of the emissor/receptor pair: the emissor transmits a
phit on a virtual channel only when `can_transmit` holds (the phit is then
inserted downstream and a credit is consumed), and the receptor extracts a
phit whose `AckPhitClear` immediately restores one credit at the emissor. -/
inductive LinkStep (num_virtual_channels : Nat) : LinkState → LinkState → Prop
  | transmit (s : LinkState) (phit : Phit) (vc cycle : Nat) :
      vc < num_virtual_channels →
      s.status.can_transmit phit vc = true →
      LinkStep num_virtual_channels s
        { status := s.status.notify_outcoming_phit vc cycle
          space := s.space.insert phit vc }
  | extract (s : LinkState) (phit : Phit) (vc ackvc : Nat) (space' : ParallelBuffers) :
      vc < num_virtual_channels →
      s.space.extract vc = .ok (phit, ackvc, space') →
      LinkStep num_virtual_channels s
        { status := s.status.acknowledge ackvc
          space := space' }

/-- Reachability from the freshly built link. -/
def LinkReachable (num_virtual_channels buffer_size flit_size : Nat) (s : LinkState) : Prop :=
  Relation.ReflTransGen (LinkStep num_virtual_channels)
    (SimpleVirtualChannels.newLink buffer_size flit_size) s

/-! ## `UpDown` routing (`src/routing/updown.rs`) -/

/-- `UpDown::next`.  Panics of the Rust code (`unwrap_or_else`, `expect`,
`unreachable!`) are modelled as errors. -/
def UpDown.next (topology : Topology) (current_router target_router : Nat)
    (target_server : Option Nat) (num_virtual_channels : Nat) :
    Except String RoutingNextCandidates :=
  match topology.up_down_distance current_router target_router with
  | none => .error "The topology does not provide an up/down path"
  | some (up_distance, down_distance) =>
    if up_distance + down_distance = 0 then
      match target_server with
      | none => .error "target server was not given."
      | some ts =>
        match (List.range (topology.ports current_router)).find? (fun i =>
            match topology.neighbour current_router i with
            | (Location.serverPort server, _) => server == ts
            | _ => false) with
        | some i =>
          .ok { candidates := (List.range num_virtual_channels).map (CandidateEgress.new i)
                idempotent := true }
        | none => .error "unreachable"
    else
      let r := (List.range (topology.ports current_router)).flatMap (fun i =>
        match topology.neighbour current_router i with
        | (Location.routerPort router_index _, _) =>
          match topology.up_down_distance router_index target_router with
          | some (new_u, new_d) =>
            if (new_u < up_distance ∧ new_d ≤ down_distance) ∨
               (new_u ≤ up_distance ∧ new_d < down_distance) then
              (List.range num_virtual_channels).map (CandidateEgress.new i)
            else []
          | none => []
        | _ => [])
      .ok { candidates := r, idempotent := true }

/-! ## `UpDownDerouting` routing (`src/routing/updown.rs`) -/

/-- The per-port body of the loop in `UpDownDerouting::next`: accumulates
the perfect-match list `r`, the fallback list `candidates` and the
`matches` flag.  `previous_router` is obtained by popping a clone of
`visited_routers` (a panic — here an error — when absent or empty). -/
def UpDownDerouting.scanPort (topology : Topology) (routing_info : RoutingInfo)
    (current_router target_router : Nat) (num_virtual_channels : Nat)
    (available_hops vc_index : Nat)
    (st : List CandidateEgress × List CandidateEgress × Bool) (i : Nat) :
    Except String (List CandidateEgress × List CandidateEgress × Bool) :=
  match topology.neighbour current_router i with
  | (Location.routerPort neighbour_router_index _, _) =>
    match routing_info.visited_routers with
    | none => .error "visited_routers not initialized"
    | some visited =>
      match visited.getLast? with
      | none => .error "pop on empty visited_routers"
      | some previous_router =>
        let new_distance := topology.distance neighbour_router_index target_router
        if new_distance = available_hops - 1 then
          .ok (st.1 ++ (List.range num_virtual_channels).map (fun _ =>
                 CandidateEgress.new i vc_index),
               st.2.1, true)
        else if new_distance < available_hops - 1 ∧ neighbour_router_index ≠ target_router ∧
            neighbour_router_index ≠ previous_router then
          .ok (st.1,
               st.2.1 ++ (List.range num_virtual_channels).map (fun _ =>
                 CandidateEgress.new i vc_index),
               st.2.2)
        else
          .ok st
  | _ => .ok st

/-- `UpDownDerouting::next`.  `available_hops = allowed_updowns*2 - hops`
(a `usize` subtraction; a negative value is a Rust panic and here surfaces
through the `available_hops = 0` guard since truncated `Nat` subtraction
gives 0).  The virtual-channel index is
`((available_hops as f64)/2.0).ceil() as usize - 1`; for any value a
simulation can reach the `f64` arithmetic is exact, so it is modelled as
`(available_hops + 1) / 2 - 1`.  Note the `virtual_channels` table of the
`UpDownDerouting` structure is never consulted. -/
def UpDownDerouting.next (allowed_updowns : Nat)
    (routing_info : RoutingInfo) (topology : Topology)
    (current_router target_router : Nat) (target_server : Option Nat)
    (num_virtual_channels : Nat) : Except String RoutingNextCandidates :=
  let num_ports := topology.ports current_router
  let distance := topology.distance current_router target_router
  let available_hops := allowed_updowns * 2 - routing_info.hops
  if distance = 0 then
    match target_server with
    | none => .error "target server was not given."
    | some ts =>
      match (List.range num_ports).find? (fun i =>
          match topology.neighbour current_router i with
          | (Location.serverPort server, _) => server == ts
          | _ => false) with
      | some i =>
        .ok { candidates := (List.range num_virtual_channels).map (CandidateEgress.new i)
              idempotent := true }
      | none => .error "unreachable"
  else if available_hops = 0 ∨ available_hops < distance then
    .error "Not enough hops available to reach target"
  else
    let vc_index := (available_hops + 1) / 2 - 1
    match (List.range num_ports).foldlM
        (UpDownDerouting.scanPort topology routing_info current_router target_router
          num_virtual_channels available_hops vc_index)
        (([] : List CandidateEgress), ([] : List CandidateEgress), false) with
    | .error e => .error e
    | .ok (r, candidates, matched) =>
      .ok { candidates := if !matched then r ++ candidates else r, idempotent := true }

/-- Modelled from the spec (for the counterexample only): the virtual
channels the specification says a candidate may carry, namely an entry of
the row of the configured `virtual_channels` two-dimensional table selected
by the packet's number of remaining up/down segments. -/
def UpDownDerouting.specTableVC (virtual_channels : List (List Nat))
    (remaining_updowns : Nat) (vc : Nat) : Prop :=
  ∃ row ∈ virtual_channels, vc ∈ row ∧
    virtual_channels.indexOf row = remaining_updowns % (virtual_channels.length + 1)

/-! ## Slices of `Basic::process` (`src/router/basic.rs`) -/

/-- The cycle-monotonicity guard opening `Basic::process`
(`last_process_at_cycle`): compute `cycles_span`, panic when the router was
already processed at this or a later cycle, otherwise record the cycle.
Returns `(cycles_span, new last_process_at_cycle)`. -/
def Basic.processCycleCheck (last_process_at_cycle : Option Nat) (cycle : Nat) :
    Except String (Nat × Option Nat) :=
  match last_process_at_cycle with
  | some last =>
    let cycles_span := cycle - last
    if last ≥ cycle then
      .error "Trying to process a router::Basic already processed"
    else
      .ok (cycles_span, some cycle)
  | none => .ok (1, some cycle)

/-- Run `processCycleCheck` over a sequence of invocation cycles. -/
def Basic.processCycleRun (cycles : List Nat) : Except String (Option Nat) :=
  cycles.foldlM (fun st c => (Basic.processCycleCheck st c).map (·.2)) none

/-- `Eventful::schedule` of `Basic` on the stack of pending wake-ups
(`next_events`, soonest last): push the target cycle and emit a `Generic`
event only when the stack is empty or the target is sooner than the current
soonest; otherwise nothing.  Returns the delay of the generated event, if
any, and the new stack. -/
def Basic.schedule (next_events : List Nat) (current_cycle delay : Nat) :
    Option Nat × List Nat :=
  let target := current_cycle + delay
  match next_events.getLast? with
  | none => (some (target - current_cycle), next_events ++ [target])
  | some last =>
    if target < last then (some (target - current_cycle), next_events ++ [target])
    else (none, next_events)

/-- The routing stage of `Basic::process` for one head-of-buffer phit that
has no committed `selected_output`, specialized to the branch on the size of
the candidate set: given the `RoutingNextCandidates` the routing returned,
either panic (empty set, `idempotent=true`), or skip the phit leaving every
piece of its state untouched (empty set, `idempotent=false`), or go on to
emit port requests.  Returns the number of undecided channels contributed
(always 1: the counter is incremented before the routing is consulted) and
the candidates that reach request emission. -/
def Basic.routePhit (routing_candidates : RoutingNextCandidates) :
    Except String (Nat × List CandidateEgress) :=
  if routing_candidates.candidates.length = 0 then
    if routing_candidates.idempotent then
      .error "There are no choices for the packet"
    else
      .ok (1, [])
  else
    .ok (1, routing_candidates.candidates)

/-- `Basic::process` specialized to a router holding exactly one head phit,
in the input buffer `buffer` at an entry (port, virtual channel) with no
committed `selected_output`, whose routing query returns
`routing_candidates` with an empty candidate list; `next_events` is the
wake-up stack (its last entry being the event now served, popped before
rescheduling).  No request is emitted, so the arbitration and output-port
phases move nothing; the router reschedules itself because
`undecided_channels > 0`.  Returns the surviving buffer, the surviving
`selected_output`, the delay of the self-scheduled `Generic` event (if one
was generated) and the new wake-up stack. -/
def Basic.processSinglePhit (buffer : List Phit) (selected_output : Option (Nat × Nat))
    (routing_candidates : RoutingNextCandidates) (next_events : List Nat) (cycle : Nat) :
    Except String (List Phit × Option (Nat × Nat) × Option Nat × List Nat) :=
  match selected_output with
  | some _ => .ok (buffer, selected_output, none, next_events)
  | none =>
    match Basic.routePhit routing_candidates with
    | .error e => .error e
    | .ok (undecided_channels, _goods) =>
      let popped := next_events.dropLast
      if undecided_channels > 0 then
        let sch := Basic.schedule popped cycle 1
        .ok (buffer, selected_output, sch.1, sch.2)
      else
        .ok (buffer, selected_output, none, popped)

/-- The candidate-gathering loop of the output-port phase of
`Basic::process` for one exit port: for each exit virtual channel, `front`
yields the phit that the port could send on it this cycle (the head of the
input buffer selected by `selected_input`, or of the internal output
buffer), and `can_advance` is the flow-control test
(`can_phit_advance`/`can_transmit`, including the bubble variant).  A body
phit evicts any head-phit candidates and switches the accumulator to
in-transit mode, in which head phits are ignored. -/
def Basic.gatherStep (front : Nat → Option Phit) (can_advance : Nat → Phit → Bool)
    (st : List Nat × Bool) (exit_vc : Nat) : List Nat × Bool :=
  match front exit_vc with
  | none => st
  | some phit =>
    if can_advance exit_vc phit then
      let cand := st.1
      let cand_in_transit := st.2
      if cand_in_transit then
        if !phit.is_begin then (cand ++ [exit_vc], cand_in_transit) else st
      else
        if phit.is_begin then (cand ++ [exit_vc], cand_in_transit)
        else ([exit_vc], true)
    else st

/-- The loop itself: fold `gatherStep` over the exit virtual channels,
starting from no candidate and not-in-transit. -/
def Basic.gatherCandidates (num_virtual_channels : Nat) (front : Nat → Option Phit)
    (can_advance : Nat → Phit → Bool) : List Nat × Bool :=
  (List.range num_virtual_channels).foldl (Basic.gatherStep front can_advance) ([], false)

/-- Virtual channel `vc` offers an advancing body phit: its `front` phit
exists, passes the flow-control test, and is not a packet head. -/
def advancingBody (front : Nat → Option Phit) (can_advance : Nat → Phit → Bool)
    (vc : Nat) : Prop :=
  ∃ p, front vc = some p ∧ can_advance vc p = true ∧ p.is_begin = false

/-- Virtual channel `vc` offers an advancing head phit. -/
def advancingHead (front : Nat → Option Phit) (can_advance : Nat → Phit → Bool)
    (vc : Nat) : Prop :=
  ∃ p, front vc = some p ∧ can_advance vc p = true ∧ p.is_begin = true

/-- One step of the token output arbiter of `Basic`
(`OutputArbiter::Token`): keep the candidate minimizing `(vc - token) mod
nvc` (computed in `i64` in Rust: `d = vc - token; if d < 0 then d += nvc`). -/
def Basic.tokenStep (num_virtual_channels token : Nat) (st : Nat × Int) (vc : Nat) :
    Nat × Int :=
  let d0 : Int := (vc : Int) - (token : Int)
  let d : Int := if d0 < 0 then d0 + (num_virtual_channels : Int) else d0
  if d < st.2 then (vc, d) else st

/-- The arbiter itself: fold `tokenStep` over the candidates starting from
`best = 0`, `bestd = nvc`, and return the best virtual channel. -/
def Basic.tokenArbiter (num_virtual_channels token : Nat) (cand : List Nat) : Nat :=
  (cand.foldl (Basic.tokenStep num_virtual_channels token)
    ((0 : Nat), (num_virtual_channels : Int))).1

/-! ## `TransmissionFromOblivious` (`src/router/mod.rs`) -/

/-- `StatusAtServer`: what a server knows of the router it injects into. -/
structure StatusAtServer where
  available_size : Nat
  size_to_send : Nat
deriving DecidableEq, Repr

/-- `StatusAtServer::acknowledge` with an `AckFixAvailableSize` message:
sizes smaller than already known are ignored (`max`). -/
def StatusAtServer.acknowledge (s : StatusAtServer) (set_available_size : Nat) :
    StatusAtServer :=
  { s with available_size := s.available_size.max set_available_size }

/-- `AgnosticParallelBuffers`: the reception space of
`TransmissionFromOblivious`. -/
structure AgnosticParallelBuffers where
  buffers : List (List Phit)
  buffer_size : Nat
  currently_selected : Nat

/-- `AgnosticParallelBuffers::extract`: pop the front phit of the given
buffer, then report the largest per-buffer free space minus 2 — the code
hard-codes a link delay of one cycle, `saturating_sub` keeping the value at
0 when the space is smaller.  Errors on an empty buffer. -/
def AgnosticParallelBuffers.extract (r : AgnosticParallelBuffers) (virtual_channel : Nat) :
    Except String (Phit × Nat × AgnosticParallelBuffers) :=
  match (r.buffers.getD virtual_channel []) with
  | [] => .error "undetermined"
  | phit :: rest =>
    let buffers' := r.buffers.set virtual_channel rest
    let available_size := (buffers'.map (fun b => r.buffer_size - b.length)).max?.getD 0
    let available_size := if available_size ≥ 1 then available_size - 2 else 0
    .ok (phit, available_size, { r with buffers := buffers' })

/-- Modelled from the spec (for the counterexample only): the
acknowledgement value the specification prescribes, namely the largest
per-buffer free space minus `2 * link_delay`, not going below 0. -/
def AgnosticParallelBuffers.specAckValue (buffer_size : Nat) (buffers : List (List Phit))
    (link_delay : Nat) : Nat :=
  ((buffers.map (fun b => buffer_size - b.length)).max?.getD 0) - 2 * link_delay

/-! ## Concrete instances used by witnesses and counterexamples -/

/-- The request set of the specification's 4×4 iSLIP scenario:
`{(0,0),(0,1),(1,0),(1,2),(2,2),(3,3)}`. -/
def islipExampleRequests : List Request :=
  [ { client := 0, resource := 0, priority := none },
    { client := 0, resource := 1, priority := none },
    { client := 1, resource := 0, priority := none },
    { client := 1, resource := 2, priority := none },
    { client := 2, resource := 2, priority := none },
    { client := 3, resource := 3, priority := none } ]

/-- Running the 4×4, one-iteration iSLIP scenario: the granted requests and
the final input and output priority pointers (indices 0..3). -/
def islipExampleEval : List Request × List Nat × List Nat :=
  match (ISLIPAllocator.new 4 4 1).addAll islipExampleRequests with
  | .ok a =>
    let p := a.perform_allocation
    (p.1, (List.range 4).map (fun c => (p.2.in_requests c).pointer),
          (List.range 4).map (fun r => (p.2.out_requests r).pointer))
  | .error _ => ([], [], [])

/-- A two-router topology (router 0 the parent of router 1, one port each)
used to instantiate the `UpDown` theorem. -/
def updownWitnessTopology : Topology :=
  { ports := fun _ => 1
    neighbour := fun r _ => if r = 0 then (Location.routerPort 1 0, 0)
                            else (Location.routerPort 0 0, 0)
    up_down_distance := fun a b => if a = b then some (0, 0) else some (0, 1)
    distance := fun a b => if a = b then 0 else 1 }

/-- A three-router line 0 – 1 – 2 (router 2 also attached to server 0) used
to instantiate `UpDownDerouting`. -/
def deroutingTopology : Topology :=
  { ports := fun r => if r = 2 then 2 else 1
    neighbour := fun r i =>
      if r = 0 then (Location.routerPort 1 0, 1)
      else if r = 1 then (Location.routerPort 2 0, 0)
      else if i = 0 then (Location.routerPort 1 0, 0)
      else (Location.serverPort 0, 0)
    up_down_distance := fun _ _ => none
    distance := fun a b => max a b - min a b }

/-! ## Jain fairness index (`src/measures.rs`) -/

/-- `measures::jain`: one pass accumulating the count `n`, the sum and the
sum of squares, then `count*count/count2/n`.  The Rust code computes in
`f64`; the formula is modelled exactly over `ℚ`. -/
def jain (xs : List ℚ) : ℚ :=
  let acc := xs.foldl (fun (st : Nat × ℚ × ℚ) x =>
    (st.1 + 1, st.2.1 + x, st.2.2 + x * x)) (0, 0, 0)
  acc.2.1 * acc.2.1 / acc.2.2 / (acc.1 : ℚ)

/-!
# Theorems

One theorem per claim (plus a witness when the theorem carries
hypotheses, and a counterexample for the corrected claims), preceded by
the helper lemmas the proofs use.
-/

/-! ## C10: the cycle-monotonicity guard of `Basic::process` -/

/-- Helper: `bind` of a successful `Except` computation. -/
theorem exceptBindOk {ε α β : Type} (a : α) (f : α → Except ε β) :
    (Except.ok a >>= f) = f a := rfl

/-- Helper: `bind` of a failed `Except` computation. -/
theorem exceptBindErr {ε α β : Type} (e : ε) (f : α → Except ε β) :
    ((Except.error e : Except ε α) >>= f) = Except.error e := rfl

/-- Helper: a successful run of the guard over a sequence of cycles ends in
a recorded cycle that bounds every processed cycle (and any starting
record). -/
theorem processCycleRun_bound (cs : List Nat) :
    ∀ (s0 : Option Nat) (st : Option Nat),
      cs.foldlM (fun st c => (Basic.processCycleCheck st c).map (·.2)) s0 = .ok st →
      (∀ x ∈ cs, ∃ t, st = some t ∧ x ≤ t) ∧
      (∀ t0, s0 = some t0 → ∃ t, st = some t ∧ t0 ≤ t) := by
  induction cs with
  | nil =>
    intro s0 st h
    simp only [List.foldlM_nil] at h
    cases h
    exact ⟨by simp, fun t0 h0 => ⟨t0, h0, le_refl t0⟩⟩
  | cons c cs ih =>
    intro s0 st h
    simp only [List.foldlM_cons] at h
    rcases hstep : (Basic.processCycleCheck s0 c).map (·.2) with e | s1
    · rw [hstep, exceptBindErr] at h; cases h
    · rw [hstep, exceptBindOk] at h
      have hs1 : s1 = some c := by
        rcases s0 with _ | last
        · simp [Basic.processCycleCheck, Except.map] at hstep
          exact hstep.symm
        · simp only [Basic.processCycleCheck] at hstep
          by_cases hge : last ≥ c
          · simp [hge, Except.map] at hstep
          · simp [hge, Except.map] at hstep
            exact hstep.symm
      have hlt : ∀ last, s0 = some last → last < c := by
        intro last h0
        subst h0
        simp only [Basic.processCycleCheck] at hstep
        by_cases hge : last ≥ c
        · simp [hge, Except.map] at hstep
        · exact Nat.lt_of_not_le hge
      obtain ⟨hall, hfrom⟩ := ih s1 st h
      refine ⟨?_, ?_⟩
      · intro x hx
        rcases List.mem_cons.mp hx with hx | hx
        · obtain ⟨t, ht, hct⟩ := hfrom c hs1
          exact ⟨t, ht, by rw [hx]; exact hct⟩
        · exact hall x hx
      · intro t0 h0
        obtain ⟨t, ht, hct⟩ := hfrom c hs1
        exact ⟨t, ht, le_of_lt (lt_of_lt_of_le (hlt t0 h0) hct)⟩

/-- C10: `Basic::process` records the cycle of its last processing in
`last_process_at_cycle` and panics when invoked again at the same or an
earlier cycle than any previous invocation: after any successful sequence
of invocations containing cycle `x`, a further invocation at a cycle
`c ≤ x` fails, and an invocation at cycle `c` over a recorded cycle `last`
succeeds exactly when `last < c`, recording `c`. -/
theorem C10_process_cycle_monotonicity (cs : List Nat) (st : Option Nat) (c x : Nat)
    (hrun : Basic.processCycleRun cs = .ok st) (hx : x ∈ cs) (hc : c ≤ x) :
    (∃ e, Basic.processCycleRun (cs ++ [c]) = .error e) ∧
    (∀ last span st', Basic.processCycleCheck (some last) c = .ok (span, st') →
      last < c ∧ st' = some c) := by
  constructor
  · obtain ⟨t, ht, hxt⟩ := (processCycleRun_bound cs none st hrun).1 x hx
    refine ⟨"Trying to process a router::Basic already processed", ?_⟩
    unfold Basic.processCycleRun at hrun ⊢
    subst ht
    have hge : c ≤ t := le_trans hc hxt
    have hstep : Basic.processCycleCheck (some t) c =
        .error "Trying to process a router::Basic already processed" := by
      simp [Basic.processCycleCheck, hge]
    rw [List.foldlM_append, hrun, exceptBindOk]
    simp only [List.foldlM_cons, List.foldlM_nil, hstep]
    rfl
  · intro last span st' hok
    simp only [Basic.processCycleCheck] at hok
    by_cases hge : last ≥ c
    · simp [hge] at hok
    · simp [hge] at hok
      exact ⟨Nat.lt_of_not_le hge, hok.2.symm⟩

/-- Witness for `C10_process_cycle_monotonicity`: processing at cycle 3 and
then again at cycle 3 panics. -/
theorem C10_witness :
    (∃ e, Basic.processCycleRun ([3] ++ [3]) = .error e) ∧
    (∀ last span st', Basic.processCycleCheck (some last) 3 = .ok (span, st') →
      last < 3 ∧ st' = some 3) :=
  C10_process_cycle_monotonicity [3] (some 3) 3 3 rfl (List.mem_singleton.mpr rfl)
    (le_refl 3)

/-! ## C2: the iSLIP pointer update -/

/-- C2 (evaluation at the failing input): on the specification's 4×4
scenario the embedded allocator grants `{(0,0),(1,2),(3,3)}` — as the
specification expects — but leaves the pointers at
`in = [1,1,0,1]`, `out = [1,0,1,1]`: the code advances each pointer by one
(`increment_pointer`) instead of moving it one beyond the accepted index,
so the claimed values `in[1]=3`, `in[3]=0`, `out[2]=2`, `out[3]=0` do not
hold. -/
theorem C2_islip_pointer_update_eval :
    islipExampleEval =
      ([ { client := 0, resource := 0, priority := some 0 },
         { client := 1, resource := 2, priority := some 0 },
         { client := 3, resource := 3, priority := some 0 } ],
       [1, 1, 0, 1], [1, 0, 1, 1]) ∧
    ¬(islipExampleEval.2.1.getD 1 0 = 3 ∧ islipExampleEval.2.1.getD 3 0 = 0 ∧
      islipExampleEval.2.2.getD 2 0 = 2 ∧ islipExampleEval.2.2.getD 3 0 = 0) := by
  constructor
  · decide
  · decide

/-! ## C5: the empty-candidate branch of the routing stage -/

/-- C5: when the routing returns an empty candidate set for a
head-of-buffer phit, `Basic::process` fails fatally exactly when the
routing is idempotent; with `idempotent=false` the phit stays in its input
buffer, its `selected_output` stays uncommitted, and the router schedules
its own wake-up one cycle later. -/
theorem C5_empty_candidates (buffer : List Phit) (cands : RoutingNextCandidates)
    (cycle : Nat) (hempty : cands.candidates = []) :
    ((∃ e, Basic.processSinglePhit buffer none cands [cycle] cycle = .error e) ↔
      cands.idempotent = true) ∧
    (cands.idempotent = false →
      Basic.processSinglePhit buffer none cands [cycle] cycle =
        .ok (buffer, none, some 1, [cycle + 1])) := by
  obtain ⟨cl, idem⟩ := cands
  have hcl : cl = [] := hempty
  subst hcl
  cases idem with
  | false =>
    refine ⟨⟨?_, ?_⟩, ?_⟩
    · rintro ⟨e, he⟩
      simp [Basic.processSinglePhit, Basic.routePhit] at he
    · intro h; cases h
    · intro _
      simp [Basic.processSinglePhit, Basic.routePhit, Basic.schedule]
  | true =>
    refine ⟨⟨fun _ => rfl, ?_⟩, ?_⟩
    · intro _
      exact ⟨"There are no choices for the packet",
        by simp [Basic.processSinglePhit, Basic.routePhit]⟩
    · intro h; cases h

/-- Witness for `C5_empty_candidates` at a concrete single-phit state with
a non-idempotent routing. -/
theorem C5_witness :
    ((∃ e, Basic.processSinglePhit [{ index := 0, packetSize := 2 }]
        none { candidates := [], idempotent := false } [7] 7 = .error e) ↔
      ({ candidates := [], idempotent := false } : RoutingNextCandidates).idempotent = true) ∧
    (({ candidates := [], idempotent := false } : RoutingNextCandidates).idempotent = false →
      Basic.processSinglePhit [{ index := 0, packetSize := 2 }]
        none { candidates := [], idempotent := false } [7] 7 =
        .ok ([{ index := 0, packetSize := 2 }], none, some 1, [8])) :=
  C5_empty_candidates [{ index := 0, packetSize := 2 }]
    { candidates := [], idempotent := false } 7 rfl

/-! ## C6: the acknowledgement of `AgnosticParallelBuffers::extract` -/

/-- C6 (amended): a successful `extract` acknowledges the largest
per-buffer free space minus 2 — the code hard-codes a link delay of one
cycle — saturating at 0; and `StatusAtServer::acknowledge` never decreases
`available_size`, setting it to the maximum of the current and received
values. -/
theorem C6_extract_ack_monotone (r : AgnosticParallelBuffers) (vc : Nat)
    (phit : Phit) (value : Nat) (r' : AgnosticParallelBuffers)
    (hex : r.extract vc = .ok (phit, value, r')) :
    value = ((r'.buffers.map (fun b => r.buffer_size - b.length)).max?.getD 0) - 2 ∧
    (∀ s : StatusAtServer, (s.acknowledge value).available_size =
        max s.available_size value ∧
      s.available_size ≤ (s.acknowledge value).available_size) := by
  constructor
  · unfold AgnosticParallelBuffers.extract at hex
    rcases hfront : r.buffers.getD vc [] with _ | ⟨p, rest⟩
    · rw [hfront] at hex; cases hex
    · rw [hfront] at hex
      simp only [Except.ok.injEq, Prod.mk.injEq] at hex
      obtain ⟨-, hval, hr'⟩ := hex
      subst hr'
      set avail := ((r.buffers.set vc rest).map (fun b => r.buffer_size - b.length)).max?.getD 0 with havail
      by_cases h1 : avail ≥ 1
      · simp only [h1, if_pos] at hval
        exact hval.symm
      · simp only [h1, if_neg, not_false_iff] at hval
        have : avail = 0 := Nat.eq_zero_of_not_pos h1
        rw [← hval, this]
  · intro s
    exact ⟨rfl, Nat.le_max_left _ _⟩

/-- Witness for `C6_extract_ack_monotone`: the specification's scenario
with `buffer_size=64`; pulling the last phit of a 32-phit packet leaves the
largest free space at 64 and acknowledges `64 - 2 = 62`, which the emitter
takes `max` with. -/
theorem C6_witness :
    (62 : Nat) = (([([] : List Phit)].map (fun b => 64 - b.length)).max?.getD 0) - 2 ∧
    (∀ s : StatusAtServer, (s.acknowledge 62).available_size =
        max s.available_size 62 ∧
      s.available_size ≤ (s.acknowledge 62).available_size) :=
  C6_extract_ack_monotone
    { buffers := [[{ index := 31, packetSize := 32 }]], buffer_size := 64,
      currently_selected := 0 }
    0 { index := 31, packetSize := 32 } 62
    { buffers := [[]], buffer_size := 64, currently_selected := 0 } rfl

/-- C6 (counterexample): the claim computes the acknowledged value as the
largest free space minus `2*link_delay`; on a link of delay 2 the code still
subtracts the hard-coded 2, acknowledging 62 where the claimed formula
gives 60. -/
theorem C6_counterexample :
    ∃ out, AgnosticParallelBuffers.extract
        { buffers := [[{ index := 0, packetSize := 1 }]], buffer_size := 64,
          currently_selected := 0 } 0 = .ok out ∧
      out.2.1 = 62 ∧
      AgnosticParallelBuffers.specAckValue 64 out.2.2.buffers 2 = 60 ∧
      out.2.1 ≠ AgnosticParallelBuffers.specAckValue 64 out.2.2.buffers 2 :=
  ⟨({ index := 0, packetSize := 1 }, 62,
    { buffers := [[]], buffer_size := 64, currently_selected := 0 }),
   rfl, rfl, rfl, by decide⟩

/-! ## C9: bounds of the Jain fairness index -/

/-- Helper: the accumulator of the `jain` loop counts the elements and
accumulates the sum and the sum of squares. -/
theorem jain_foldl (xs : List ℚ) : ∀ (k : Nat) (s q : ℚ),
    xs.foldl (fun (st : Nat × ℚ × ℚ) x => (st.1 + 1, st.2.1 + x, st.2.2 + x * x)) (k, s, q) =
      (k + xs.length, s + xs.sum, q + (xs.map (fun x => x * x)).sum) := by
  induction xs with
  | nil => intro k s q; simp
  | cons a t ih =>
    intro k s q
    rw [List.foldl_cons, ih]
    refine Prod.ext ?_ (Prod.ext ?_ ?_) <;> simp <;> [omega; ring; ring]

/-- Helper: `jain` as a closed formula over sum, sum of squares and length. -/
theorem jain_eq (xs : List ℚ) :
    jain xs = xs.sum * xs.sum / ((xs.map (fun x => x * x)).sum * (xs.length : ℚ)) := by
  unfold jain
  rw [jain_foldl]
  simp [div_div]

/-- Helper: for non-negative entries the sum of squares is at most the
square of the sum. -/
theorem sum_sq_le_sq_sum (xs : List ℚ) (hnn : ∀ x ∈ xs, 0 ≤ x) :
    (xs.map (fun x => x * x)).sum ≤ xs.sum * xs.sum := by
  induction xs with
  | nil => simp
  | cons a t ih =>
    have ha : 0 ≤ a := hnn a (List.mem_cons_self a t)
    have ht : ∀ x ∈ t, 0 ≤ x := fun x hx => hnn x (List.mem_cons_of_mem a hx)
    have hts : 0 ≤ t.sum := List.sum_nonneg ht
    have := ih ht
    simp only [List.map_cons, List.sum_cons]
    nlinarith

/-- Helper: the sum of the squares of an affine image of a list. -/
theorem sum_affine_sq (a b : ℚ) (xs : List ℚ) :
    (xs.map (fun x => (a * x + b) ^ 2)).sum =
      a ^ 2 * (xs.map (fun x => x * x)).sum + 2 * a * b * xs.sum +
        (xs.length : ℚ) * b ^ 2 := by
  induction xs with
  | nil => simp
  | cons c t ih =>
    simp only [List.map_cons, List.sum_cons, List.length_cons, ih]
    push_cast
    ring

/-- Helper: a sum of non-negative rationals vanishes exactly when every
term does. -/
theorem sum_eq_zero_iff_of_nonneg (xs : List ℚ) (hnn : ∀ x ∈ xs, 0 ≤ x) :
    xs.sum = 0 ↔ ∀ x ∈ xs, x = 0 := by
  induction xs with
  | nil => simp
  | cons a t ih =>
    have ha : 0 ≤ a := hnn a (List.mem_cons_self a t)
    have ht : ∀ x ∈ t, 0 ≤ x := fun x hx => hnn x (List.mem_cons_of_mem a hx)
    have hts : 0 ≤ t.sum := List.sum_nonneg ht
    simp only [List.sum_cons, List.mem_cons]
    constructor
    · intro h
      have ha0 : a = 0 := by linarith
      have ht0 : t.sum = 0 := by linarith
      intro x hx
      rcases hx with hx | hx
      · rw [hx, ha0]
      · exact (ih ht).mp ht0 x hx
    · intro h
      have ha0 : a = 0 := h a (Or.inl rfl)
      have ht0 : t.sum = 0 := (ih ht).mpr (fun x hx => h x (Or.inr hx))
      rw [ha0, ht0, add_zero]

/-- Helper: the discrete Cauchy–Schwarz gap: `n·(n·Q − S²)` is the sum of
the squares `(n·x − S)²`, hence `S² ≤ n·Q`, with equality exactly when
every entry satisfies `n·x = S`. -/
theorem cauchy_gap (xs : List ℚ) :
    (xs.map (fun x => ((xs.length : ℚ) * x - xs.sum) ^ 2)).sum =
      (xs.length : ℚ) * ((xs.length : ℚ) * (xs.map (fun x => x * x)).sum -
        xs.sum * xs.sum) := by
  have h := sum_affine_sq (xs.length : ℚ) (-xs.sum) xs
  have hcongr : (xs.map (fun x => ((xs.length : ℚ) * x - xs.sum) ^ 2)) =
      (xs.map (fun x => ((xs.length : ℚ) * x + (-xs.sum)) ^ 2)) := by
    apply List.map_congr_left
    intro x _
    ring_nf
  rw [hcongr, h]
  ring

/-- C9: for a sequence of non-negative entries with at least one positive
entry, the Jain index `(Σx)²/(n·Σx²)` computed by `measures::jain` lies in
`[1/n, 1]` and equals 1 exactly when all entries are equal. -/
theorem C9_jain_bounds (xs : List ℚ) (hnn : ∀ x ∈ xs, 0 ≤ x)
    (hpos : ∃ x ∈ xs, 0 < x) :
    1 / (xs.length : ℚ) ≤ jain xs ∧ jain xs ≤ 1 ∧
    (jain xs = 1 ↔ ∀ x ∈ xs, ∀ y ∈ xs, x = y) := by
  obtain ⟨w, hw, hwpos⟩ := hpos
  have hne : xs ≠ [] := by rintro rfl; cases hw
  have hnpos : (0 : ℚ) < (xs.length : ℚ) := by
    have := List.length_pos.mpr hne
    exact_mod_cast this
  set n : ℚ := (xs.length : ℚ) with hn
  set S : ℚ := xs.sum with hS
  set Q : ℚ := (xs.map (fun x => x * x)).sum with hQ
  have hQterms : ∀ y ∈ xs.map (fun x => x * x), 0 ≤ y := by
    intro y hy
    obtain ⟨x, hx, rfl⟩ := List.mem_map.mp hy
    exact mul_self_nonneg x
  have hQpos : 0 < Q := by
    have hmem : w * w ∈ xs.map (fun x => x * x) := List.mem_map.mpr ⟨w, hw, rfl⟩
    have hle : w * w ≤ Q := List.single_le_sum hQterms _ hmem
    nlinarith
  have hQS : Q ≤ S * S := sum_sq_le_sq_sum xs hnn
  have hgapnn : 0 ≤ n * (n * Q - S * S) := by
    rw [← cauchy_gap]
    apply List.sum_nonneg
    intro y hy
    obtain ⟨x, hx, rfl⟩ := List.mem_map.mp hy
    positivity
  have hSQ : S * S ≤ n * Q := by nlinarith
  have hjain : jain xs = S * S / (Q * n) := jain_eq xs
  refine ⟨?_, ?_, ?_⟩
  · rw [hjain, div_le_div_iff₀ hnpos (by positivity)]
    nlinarith
  · rw [hjain, div_le_one (by positivity)]
    nlinarith
  · rw [hjain, div_eq_one_iff_eq (by positivity)]
    constructor
    · intro h
      have hzero : (xs.map (fun x => (n * x - S) ^ 2)).sum = 0 := by
        rw [cauchy_gap, ← hn, ← hS, ← hQ]
        nlinarith
      have hall : ∀ y ∈ xs.map (fun x => (n * x - S) ^ 2), y = 0 := by
        refine (sum_eq_zero_iff_of_nonneg _ ?_).mp hzero
        intro y hy
        obtain ⟨x, hx, rfl⟩ := List.mem_map.mp hy
        positivity
      have hfix : ∀ x ∈ xs, n * x = S := by
        intro x hx
        have := hall _ (List.mem_map.mpr ⟨x, hx, rfl⟩)
        have hsq : (n * x - S) ^ 2 = 0 := this
        have := pow_eq_zero_iff (n := 2) (by norm_num) |>.mp hsq
        linarith
      intro x hx y hy
      have hx' := hfix x hx
      have hy' := hfix y hy
      have : n * x = n * y := by rw [hx', hy']
      exact mul_left_cancel₀ (ne_of_gt hnpos) this
    · intro h
      have hfix : ∀ x ∈ xs, x = w := fun x hx => h x hx w hw
      have hsum : S = n * w := by
        rw [hS, List.sum_eq_card_nsmul xs w hfix]
        simp [hn]
      have hq : Q = n * (w * w) := by
        rw [hQ]
        have : ∀ y ∈ xs.map (fun x => x * x), y = w * w := by
          intro y hy
          obtain ⟨x, hx, rfl⟩ := List.mem_map.mp hy
          rw [hfix x hx]
        rw [List.sum_eq_card_nsmul _ _ this]
        simp [hn]
      rw [hsum, hq]
      ring

/-- Witness for `C9_jain_bounds` at `xs = [1, 2]`: the index is `9/10`. -/
theorem C9_witness :
    1 / (([1, 2] : List ℚ).length : ℚ) ≤ jain [1, 2] ∧ jain [1, 2] ≤ 1 ∧
    (jain [1, 2] = 1 ↔ ∀ x ∈ ([1, 2] : List ℚ), ∀ y ∈ ([1, 2] : List ℚ), x = y) :=
  C9_jain_bounds [1, 2] (by norm_num) ⟨1, by norm_num⟩

/-! ## C7: body phits pre-empt head phits in the output-port phase -/

/-- Helper: one `gatherStep` preserves the shape of the accumulator: in
in-transit mode the candidate list is non-empty and all-body, otherwise it
is all-head; new entries are the scanned channel; in-transit mode is sticky
and is entered whenever the scanned channel offers an advancing body
phit. -/
theorem gatherStep_spec (front : Nat → Option Phit) (can_advance : Nat → Phit → Bool)
    (st : List Nat × Bool) (c : Nat)
    (h1 : st.2 = true → st.1 ≠ [] ∧ ∀ vc ∈ st.1, advancingBody front can_advance vc)
    (h2 : st.2 = false → ∀ vc ∈ st.1, advancingHead front can_advance vc) :
    let st' := Basic.gatherStep front can_advance st c
    (st'.2 = true → st'.1 ≠ [] ∧ ∀ vc ∈ st'.1, advancingBody front can_advance vc) ∧
    (st'.2 = false → ∀ vc ∈ st'.1, advancingHead front can_advance vc) ∧
    (∀ vc ∈ st'.1, vc ∈ st.1 ∨ vc = c) ∧
    (st.2 = true → st'.2 = true) ∧
    (advancingBody front can_advance c → st'.2 = true) := by
  intro st'
  rcases hf : front c with _ | p
  · have hid : st' = st := by simp [st', Basic.gatherStep, hf]
    rw [hid]
    refine ⟨h1, h2, fun vc hv => Or.inl hv, fun h => h, ?_⟩
    rintro ⟨q, hq, -, -⟩
    rw [hf] at hq
    cases hq
  · by_cases hca : can_advance c p = true
    · rcases Bool.eq_false_or_eq_true st.2 with hsf | hsf
      · by_cases hib : p.is_begin = true
        · have hid : st' = st := by
            simp [st', Basic.gatherStep, hf, hca, hsf, hib]
          rw [hid]
          refine ⟨h1, h2, fun vc hv => Or.inl hv, fun h => h, ?_⟩
          rintro ⟨q, hq, -, hqb⟩
          rw [hf] at hq
          cases hq
          rw [hib] at hqb
          cases hqb
        · have hib' : p.is_begin = false := Bool.eq_false_iff.mpr hib
          have hval : st' = (st.1 ++ [c], true) := by
            simp [st', Basic.gatherStep, hf, hca, hsf, hib']
          rw [hval]
          refine ⟨?_, ?_, ?_, fun _ => rfl, fun _ => rfl⟩
          · intro _
            refine ⟨by simp, ?_⟩
            intro vc hv
            rcases List.mem_append.mp hv with hv | hv
            · exact (h1 hsf).2 vc hv
            · rw [List.mem_singleton.mp hv]
              exact ⟨p, hf, hca, hib'⟩
          · intro h; cases h
          · intro vc hv
            rcases List.mem_append.mp hv with hv | hv
            · exact Or.inl hv
            · exact Or.inr (List.mem_singleton.mp hv)
      · by_cases hib : p.is_begin = true
        · have hval : st' = (st.1 ++ [c], false) := by
            simp [st', Basic.gatherStep, hf, hca, hsf, hib]
          rw [hval]
          refine ⟨?_, ?_, ?_, ?_, ?_⟩
          · intro h; cases h
          · intro _ vc hv
            rcases List.mem_append.mp hv with hv | hv
            · exact h2 hsf vc hv
            · rw [List.mem_singleton.mp hv]
              exact ⟨p, hf, hca, hib⟩
          · intro vc hv
            rcases List.mem_append.mp hv with hv | hv
            · exact Or.inl hv
            · exact Or.inr (List.mem_singleton.mp hv)
          · intro h
            exact absurd h (by simp [hsf])
          · rintro ⟨q, hq, -, hqb⟩
            rw [hf] at hq
            cases hq
            rw [hib] at hqb
            cases hqb
        · have hib' : p.is_begin = false := Bool.eq_false_iff.mpr hib
          have hval : st' = ([c], true) := by
            simp [st', Basic.gatherStep, hf, hca, hsf, hib']
          rw [hval]
          refine ⟨?_, ?_, ?_, ?_, fun _ => rfl⟩
          · intro _
            refine ⟨by simp, ?_⟩
            intro vc hv
            rw [List.mem_singleton.mp hv]
            exact ⟨p, hf, hca, hib'⟩
          · intro h; cases h
          · intro vc hv
            exact Or.inr (List.mem_singleton.mp hv)
          · intro h
            exact absurd h (by simp [hsf])
    · have hid : st' = st := by
        simp [st', Basic.gatherStep, hf, hca]
      rw [hid]
      refine ⟨h1, h2, fun vc hv => Or.inl hv, fun h => h, ?_⟩
      rintro ⟨q, hq, hqa, -⟩
      rw [hf] at hq
      cases hq
      exact absurd hqa hca

/-- Helper: the fold of `gatherStep` over any channel list keeps the
accumulator invariant and ends in in-transit mode whenever it starts there
or some scanned channel offers an advancing body phit. -/
theorem gather_fold_inv (front : Nat → Option Phit) (can_advance : Nat → Phit → Bool)
    (l : List Nat) : ∀ st : List Nat × Bool,
    (st.2 = true → st.1 ≠ [] ∧ ∀ vc ∈ st.1, advancingBody front can_advance vc) →
    (st.2 = false → ∀ vc ∈ st.1, advancingHead front can_advance vc) →
    (((l.foldl (Basic.gatherStep front can_advance) st).2 = true →
        (l.foldl (Basic.gatherStep front can_advance) st).1 ≠ [] ∧
        ∀ vc ∈ (l.foldl (Basic.gatherStep front can_advance) st).1,
          advancingBody front can_advance vc) ∧
     ((l.foldl (Basic.gatherStep front can_advance) st).2 = false →
        ∀ vc ∈ (l.foldl (Basic.gatherStep front can_advance) st).1,
          advancingHead front can_advance vc) ∧
     (∀ vc ∈ (l.foldl (Basic.gatherStep front can_advance) st).1,
        vc ∈ st.1 ∨ vc ∈ l) ∧
     ((st.2 = true ∨ ∃ vc ∈ l, advancingBody front can_advance vc) →
        (l.foldl (Basic.gatherStep front can_advance) st).2 = true)) := by
  induction l with
  | nil =>
    intro st h1 h2
    refine ⟨h1, h2, fun vc hv => Or.inl hv, ?_⟩
    rintro (h | ⟨vc, hvc, -⟩)
    · exact h
    · cases hvc
  | cons c rest ih =>
    intro st h1 h2
    obtain ⟨k1, k2, k3, k4, k5⟩ := gatherStep_spec front can_advance st c h1 h2
    obtain ⟨r1, r2, r3, r4⟩ := ih (Basic.gatherStep front can_advance st c) k1 k2
    rw [List.foldl_cons]
    refine ⟨r1, r2, ?_, ?_⟩
    · intro vc hv
      rcases r3 vc hv with h | h
      · rcases k3 vc h with h' | h'
        · exact Or.inl h'
        · exact Or.inr (h' ▸ List.mem_cons_self c rest)
      · exact Or.inr (List.mem_cons_of_mem c h)
    · rintro (h | ⟨vc, hvc, hb⟩)
      · exact r4 (Or.inl (k4 h))
      · rcases List.mem_cons.mp hvc with h' | h'
        · exact r4 (Or.inl (k5 (h' ▸ hb)))
        · exact r4 (Or.inr ⟨vc, h', hb⟩)

/-- Helper: one arbiter step either keeps the state or moves to the
scanned candidate, strictly lowering the best distance. -/
theorem tokenStep_spec (num_virtual_channels token : Nat) (st : Nat × Int) (vc : Nat) :
    Basic.tokenStep num_virtual_channels token st vc = st ∨
    ((Basic.tokenStep num_virtual_channels token st vc).1 = vc ∧
      (Basic.tokenStep num_virtual_channels token st vc).2 < st.2) := by
  by_cases h0 : ((vc : Int) - (token : Int)) < 0
  · by_cases h1 : ((vc : Int) - (token : Int) + (num_virtual_channels : Int)) < st.2
    · right
      constructor <;> simp [Basic.tokenStep, h0, h1]
    · left
      simp [Basic.tokenStep, h0, h1]
  · by_cases h1 : ((vc : Int) - (token : Int)) < st.2
    · right
      constructor <;> simp [Basic.tokenStep, h0, h1]
    · left
      simp [Basic.tokenStep, h0, h1]

/-- Helper: the arbiter fold keeps its best pick among the candidates once
it has one. -/
theorem tokenArbiter_fold_mem (num_virtual_channels token : Nat) (cand : List Nat) :
    ∀ (l : List Nat), (∀ vc ∈ l, vc ∈ cand) →
    ∀ st : Nat × Int, st.1 ∈ cand →
    (l.foldl (Basic.tokenStep num_virtual_channels token) st).1 ∈ cand := by
  intro l
  induction l with
  | nil => intro _ st hst; exact hst
  | cons c rest ih =>
    intro hl st hst
    rw [List.foldl_cons]
    apply ih (fun vc hv => hl vc (List.mem_cons_of_mem c hv))
    rcases tokenStep_spec num_virtual_channels token st c with h | h
    · rw [h]; exact hst
    · rw [h.1]; exact hl c (List.mem_cons_self c rest)

/-- Helper: with all candidates and the token below `nvc`, the arbitrated
virtual channel is one of the candidates. -/
theorem tokenArbiter_mem (num_virtual_channels token : Nat) (cand : List Nat)
    (hne : cand ≠ []) (hlt : ∀ vc ∈ cand, vc < num_virtual_channels)
    (htoken : token < num_virtual_channels) :
    Basic.tokenArbiter num_virtual_channels token cand ∈ cand := by
  rcases cand with _ | ⟨c, rest⟩
  · exact absurd rfl hne
  · unfold Basic.tokenArbiter
    rw [List.foldl_cons]
    apply tokenArbiter_fold_mem num_virtual_channels token (c :: rest) rest
      (fun vc hv => List.mem_cons_of_mem c hv)
    have hc : c < num_virtual_channels := hlt c (List.mem_cons_self c rest)
    have hd : (if ((c : Int) - (token : Int)) < 0 then
        (c : Int) - (token : Int) + (num_virtual_channels : Int)
      else (c : Int) - (token : Int)) < (num_virtual_channels : Int) := by
      split <;> omega
    have hfirst : (Basic.tokenStep num_virtual_channels token
        ((0 : Nat), (num_virtual_channels : Int)) c).1 = c := by
      simp only [Basic.tokenStep]
      rw [if_pos hd]
    rw [hfirst]
    exact List.mem_cons_self c rest

/-- C7: in the output-port phase, if some exit virtual channel offers an
advancing body phit that can be transmitted this cycle, the candidate list
handed to the port's output arbiter is non-empty and consists only of
body-phit channels, and in particular the channel chosen by the token
arbiter carries a body phit — no head phit of a new packet is selected on
that port that cycle. -/
theorem C7_body_phits_preempt (num_virtual_channels token : Nat)
    (front : Nat → Option Phit) (can_advance : Nat → Phit → Bool)
    (htoken : token < num_virtual_channels)
    (hbody : ∃ vc, vc < num_virtual_channels ∧ advancingBody front can_advance vc) :
    (∀ vc ∈ (Basic.gatherCandidates num_virtual_channels front can_advance).1,
       advancingBody front can_advance vc) ∧
    (Basic.gatherCandidates num_virtual_channels front can_advance).1 ≠ [] ∧
    advancingBody front can_advance
      (Basic.tokenArbiter num_virtual_channels token
        (Basic.gatherCandidates num_virtual_channels front can_advance).1) := by
  obtain ⟨vc0, hvc0, hb0⟩ := hbody
  have base1 : (([] : List Nat), false).2 = true →
      (([] : List Nat), false).1 ≠ [] ∧
      ∀ vc ∈ (([] : List Nat), false).1, advancingBody front can_advance vc := by
    intro h; cases h
  have base2 : (([] : List Nat), false).2 = false →
      ∀ vc ∈ (([] : List Nat), false).1, advancingHead front can_advance vc := by
    intro _ vc hv; cases hv
  obtain ⟨r1, r2, r3, r4⟩ := gather_fold_inv front can_advance
    (List.range num_virtual_channels) ([], false) base1 base2
  have hflag : (Basic.gatherCandidates num_virtual_channels front can_advance).2 = true :=
    r4 (Or.inr ⟨vc0, List.mem_range.mpr hvc0, hb0⟩)
  obtain ⟨hne, hall⟩ := r1 hflag
  have hlt : ∀ vc ∈ (Basic.gatherCandidates num_virtual_channels front can_advance).1,
      vc < num_virtual_channels := by
    intro vc hv
    rcases r3 vc hv with h | h
    · cases h
    · exact List.mem_range.mp h
  refine ⟨hall, hne, ?_⟩
  exact hall _ (tokenArbiter_mem num_virtual_channels token _ hne hlt htoken)

/-- Witness for `C7_body_phits_preempt`: two virtual channels, channel 0
holding an advancing head phit and channel 1 an advancing body phit; the
candidate list is `[1]` and the arbiter picks the body phit. -/
theorem C7_witness :
    (∀ vc ∈ (Basic.gatherCandidates 2
        (fun vc => if vc = 1 then some { index := 1, packetSize := 2 }
                   else some { index := 0, packetSize := 2 })
        (fun _ _ => true)).1,
       advancingBody (fun vc => if vc = 1 then some { index := 1, packetSize := 2 }
                   else some { index := 0, packetSize := 2 }) (fun _ _ => true) vc) ∧
    (Basic.gatherCandidates 2
        (fun vc => if vc = 1 then some { index := 1, packetSize := 2 }
                   else some { index := 0, packetSize := 2 })
        (fun _ _ => true)).1 ≠ [] ∧
    advancingBody (fun vc => if vc = 1 then some { index := 1, packetSize := 2 }
                   else some { index := 0, packetSize := 2 }) (fun _ _ => true)
      (Basic.tokenArbiter 2 0
        (Basic.gatherCandidates 2
          (fun vc => if vc = 1 then some { index := 1, packetSize := 2 }
                     else some { index := 0, packetSize := 2 })
          (fun _ _ => true)).1) :=
  C7_body_phits_preempt 2 0
    (fun vc => if vc = 1 then some { index := 1, packetSize := 2 }
               else some { index := 0, packetSize := 2 })
    (fun _ _ => true) (by decide)
    ⟨1, by decide, { index := 1, packetSize := 2 }, rfl, rfl, rfl⟩

/-! ## C4: the candidate set of `UpDown::next` -/

/-- C4: away from the target (`u + d > 0`), `UpDown::next` returns, with
`idempotent = true`, exactly the egresses `(port i, vc)` over every port
`i` leading to a neighbouring router whose up/down distance `(u2, d2)` to
the target satisfies `u2 < u ∧ d2 ≤ d` or `u2 ≤ u ∧ d2 < d`, paired with
every virtual channel `vc < num_virtual_channels`. -/
theorem C4_updown_admissible (topology : Topology) (current_router target_router : Nat)
    (target_server : Option Nat) (num_virtual_channels : Nat) (u d : Nat)
    (hud : topology.up_down_distance current_router target_router = some (u, d))
    (hpos : 0 < u + d) :
    ∃ res, UpDown.next topology current_router target_router target_server
        num_virtual_channels = .ok res ∧
      res.idempotent = true ∧
      ∀ c : CandidateEgress, c ∈ res.candidates ↔
        ∃ i, i < topology.ports current_router ∧
          ∃ ri rp lc, topology.neighbour current_router i = (Location.routerPort ri rp, lc) ∧
          ∃ u2 d2, topology.up_down_distance ri target_router = some (u2, d2) ∧
            ((u2 < u ∧ d2 ≤ d) ∨ (u2 ≤ u ∧ d2 < d)) ∧
          ∃ vc, vc < num_virtual_channels ∧ c = CandidateEgress.new i vc := by
  have hne0 : ¬(u + d = 0) := Nat.pos_iff_ne_zero.mp hpos
  refine ⟨{ candidates := (List.range (topology.ports current_router)).flatMap (fun i =>
      match topology.neighbour current_router i with
      | (Location.routerPort router_index _, _) =>
        match topology.up_down_distance router_index target_router with
        | some (new_u, new_d) =>
          if (new_u < u ∧ new_d ≤ d) ∨ (new_u ≤ u ∧ new_d < d) then
            (List.range num_virtual_channels).map (CandidateEgress.new i)
          else []
        | none => []
      | _ => []), idempotent := true }, ?_, rfl, ?_⟩
  · unfold UpDown.next
    rw [hud]
    dsimp only
    rw [if_neg hne0]
  · intro c
    constructor
    · intro hc
      rw [List.mem_flatMap] at hc
      obtain ⟨i, hi, hmem⟩ := hc
      refine ⟨i, List.mem_range.mp hi, ?_⟩
      rcases hnb : topology.neighbour current_router i with ⟨loc, lc⟩
      rw [hnb] at hmem
      rcases loc with ⟨ri, rp⟩ | sp | _
      · dsimp only at hmem
        rcases hudd : topology.up_down_distance ri target_router with _ | ⟨u2, d2⟩
        · rw [hudd] at hmem
          cases hmem
        · rw [hudd] at hmem
          dsimp only at hmem
          by_cases hcond : (u2 < u ∧ d2 ≤ d) ∨ (u2 ≤ u ∧ d2 < d)
          · rw [if_pos hcond] at hmem
            obtain ⟨vc, hvc, rfl⟩ := List.mem_map.mp hmem
            exact ⟨ri, rp, lc, rfl, u2, d2, hudd, hcond, vc, List.mem_range.mp hvc, rfl⟩
          · rw [if_neg hcond] at hmem
            cases hmem
      · dsimp only at hmem
        cases hmem
      · dsimp only at hmem
        cases hmem
    · rintro ⟨i, hi, ri, rp, lc, hnb, u2, d2, hudd, hcond, vc, hvc, rfl⟩
      rw [List.mem_flatMap]
      refine ⟨i, List.mem_range.mpr hi, ?_⟩
      rw [hnb]
      dsimp only
      rw [hudd]
      dsimp only
      rw [if_pos hcond]
      exact List.mem_map.mpr ⟨vc, List.mem_range.mpr hvc, rfl⟩

/-- Witness for `C4_updown_admissible`: on the two-router topology, from
router 0 to router 1 (up/down distance `(0,1)`), with one virtual
channel. -/
theorem C4_witness :
    ∃ res, UpDown.next updownWitnessTopology 0 1 none 1 = .ok res ∧
      res.idempotent = true ∧
      ∀ c : CandidateEgress, c ∈ res.candidates ↔
        ∃ i, i < updownWitnessTopology.ports 0 ∧
          ∃ ri rp lc, updownWitnessTopology.neighbour 0 i =
            (Location.routerPort ri rp, lc) ∧
          ∃ u2 d2, updownWitnessTopology.up_down_distance ri 1 = some (u2, d2) ∧
            ((u2 < 0 ∧ d2 ≤ 1) ∨ (u2 ≤ 0 ∧ d2 < 1)) ∧
          ∃ vc, vc < 1 ∧ c = CandidateEgress.new i vc :=
  C4_updown_admissible updownWitnessTopology 0 1 none 1 0 1 rfl (by decide)

/-! ## C8: the virtual channel carried by `UpDownDerouting` candidates -/

/-- Helper: an invariant preserved by every successful step of an
`Except`-valued fold holds of a successful fold. -/
theorem foldlM_except_inv {σ α : Type} (P : σ → Prop) (f : σ → α → Except String σ)
    (l : List α) : ∀ s0, P s0 →
    (∀ s a, a ∈ l → P s → ∀ s', f s a = .ok s' → P s') →
    ∀ s', l.foldlM f s0 = .ok s' → P s' := by
  induction l with
  | nil =>
    intro s0 h _ s' hf
    simp only [List.foldlM_nil] at hf
    cases hf
    exact h
  | cons a t ih =>
    intro s0 h hstep s' hf
    simp only [List.foldlM_cons] at hf
    rcases hfa : f s0 a with e | s1
    · rw [hfa, exceptBindErr] at hf
      cases hf
    · rw [hfa, exceptBindOk] at hf
      exact ih s1 (hstep s0 a (List.mem_cons_self a t) h s1 hfa)
        (fun s b hb => hstep s b (List.mem_cons_of_mem a hb)) s' hf

/-- Helper: every candidate pushed by `scanPort` carries the virtual
channel `vc_index`. -/
theorem scanPort_vc (topology : Topology) (routing_info : RoutingInfo)
    (current_router target_router num_virtual_channels available_hops vc_index : Nat)
    (st : List CandidateEgress × List CandidateEgress × Bool) (i : Nat)
    (st' : List CandidateEgress × List CandidateEgress × Bool)
    (hok : UpDownDerouting.scanPort topology routing_info current_router target_router
      num_virtual_channels available_hops vc_index st i = .ok st')
    (h1 : ∀ c ∈ st.1, c.virtual_channel = vc_index)
    (h2 : ∀ c ∈ st.2.1, c.virtual_channel = vc_index) :
    (∀ c ∈ st'.1, c.virtual_channel = vc_index) ∧
    (∀ c ∈ st'.2.1, c.virtual_channel = vc_index) := by
  unfold UpDownDerouting.scanPort at hok
  rcases hnb : topology.neighbour current_router i with ⟨loc, lc⟩
  rw [hnb] at hok
  rcases loc with ⟨ri, rp⟩ | sp | _
  · dsimp only at hok
    rcases hvr : routing_info.visited_routers with _ | visited
    · rw [hvr] at hok; cases hok
    · rw [hvr] at hok
      dsimp only at hok
      rcases hlast : visited.getLast? with _ | prev
      · rw [hlast] at hok; cases hok
      · rw [hlast] at hok
        dsimp only at hok
        by_cases hfit : topology.distance ri target_router = available_hops - 1
        · rw [if_pos hfit] at hok
          cases hok
          refine ⟨?_, h2⟩
          intro c hc
          rcases List.mem_append.mp hc with hc | hc
          · exact h1 c hc
          · obtain ⟨-, -, rfl⟩ := List.mem_map.mp hc
            rfl
        · rw [if_neg hfit] at hok
          by_cases hless : topology.distance ri target_router < available_hops - 1 ∧
              ri ≠ target_router ∧ ri ≠ prev
          · rw [if_pos hless] at hok
            cases hok
            refine ⟨h1, ?_⟩
            intro c hc
            rcases List.mem_append.mp hc with hc | hc
            · exact h2 c hc
            · obtain ⟨-, -, rfl⟩ := List.mem_map.mp hc
              rfl
          · rw [if_neg hless] at hok
            cases hok
            exact ⟨h1, h2⟩
  · dsimp only at hok
    cases hok
    exact ⟨h1, h2⟩
  · dsimp only at hok
    cases hok
    exact ⟨h1, h2⟩

/-- C8 (amended): away from the target router every candidate returned by
`UpDownDerouting::next` carries the virtual channel
`⌈available_hops/2⌉ - 1` where
`available_hops = allowed_updowns*2 - hops`; the configured
`virtual_channels` table plays no part. -/
theorem C8_derouting_vc (allowed_updowns : Nat) (routing_info : RoutingInfo)
    (topology : Topology) (current_router target_router : Nat)
    (target_server : Option Nat) (num_virtual_channels : Nat)
    (res : RoutingNextCandidates)
    (hdist : ¬(topology.distance current_router target_router = 0))
    (hok : UpDownDerouting.next allowed_updowns routing_info topology current_router
      target_router target_server num_virtual_channels = .ok res) :
    ∀ c ∈ res.candidates,
      c.virtual_channel = (allowed_updowns * 2 - routing_info.hops + 1) / 2 - 1 := by
  unfold UpDownDerouting.next at hok
  rw [if_neg hdist] at hok
  by_cases hguard : allowed_updowns * 2 - routing_info.hops = 0 ∨
      allowed_updowns * 2 - routing_info.hops <
        topology.distance current_router target_router
  · rw [if_pos hguard] at hok
    cases hok
  · rw [if_neg hguard] at hok
    dsimp only at hok
    rcases hfold : (List.range (topology.ports current_router)).foldlM
        (UpDownDerouting.scanPort topology routing_info current_router target_router
          num_virtual_channels (allowed_updowns * 2 - routing_info.hops)
          ((allowed_updowns * 2 - routing_info.hops + 1) / 2 - 1))
        (([] : List CandidateEgress), ([] : List CandidateEgress), false)
      with e | ⟨r, candidates, matched⟩
    · rw [hfold] at hok
      cases hok
    · rw [hfold] at hok
      dsimp only at hok
      cases hok
      have hinv := foldlM_except_inv
        (fun st : List CandidateEgress × List CandidateEgress × Bool =>
          (∀ c ∈ st.1, c.virtual_channel =
            (allowed_updowns * 2 - routing_info.hops + 1) / 2 - 1) ∧
          (∀ c ∈ st.2.1, c.virtual_channel =
            (allowed_updowns * 2 - routing_info.hops + 1) / 2 - 1))
        (UpDownDerouting.scanPort topology routing_info current_router target_router
          num_virtual_channels (allowed_updowns * 2 - routing_info.hops)
          ((allowed_updowns * 2 - routing_info.hops + 1) / 2 - 1))
        (List.range (topology.ports current_router))
        (([] : List CandidateEgress), ([] : List CandidateEgress), false)
        ⟨fun c hc => absurd hc (List.not_mem_nil c), fun c hc => absurd hc (List.not_mem_nil c)⟩
        (fun s a _ hP s' hstep =>
          scanPort_vc topology routing_info current_router target_router
            num_virtual_channels (allowed_updowns * 2 - routing_info.hops)
            ((allowed_updowns * 2 - routing_info.hops + 1) / 2 - 1) s a s' hstep hP.1 hP.2)
        (r, candidates, matched) hfold
      intro c hc
      dsimp only at hc
      rcases matched with _ | _
      · simp only [Bool.not_false, if_pos] at hc
        rcases List.mem_append.mp hc with hc | hc
        · exact hinv.1 c hc
        · exact hinv.2 c hc
      · simp only [Bool.not_true, if_neg] at hc
        exact hinv.1 c hc

/-- Witness for `C8_derouting_vc`: on the three-router line, from router 0
to router 2 with `allowed_updowns = 1`, `hops = 0` and two virtual
channels, both candidates carry virtual channel `(2+1)/2 - 1 = 0`. -/
theorem C8_witness :
    (CandidateEgress.new 0 0).virtual_channel = (1 * 2 - 0 + 1) / 2 - 1 :=
  C8_derouting_vc 1 { hops := 0, visited_routers := some [0] } deroutingTopology
    0 2 (some 0) 2
    { candidates := [CandidateEgress.new 0 0, CandidateEgress.new 0 0], idempotent := true }
    (by decide) rfl (CandidateEgress.new 0 0) (by decide)

/-- C8 (counterexample): with the configured table `virtual_channels =
[[7]]`, `UpDownDerouting::next` still returns candidates on virtual
channel 0 — the table is never consulted, so the claimed channel
assignment fails however the table is indexed. -/
theorem C8_counterexample :
    ∃ res, UpDownDerouting.next 1 { hops := 0, visited_routers := some [0] }
        deroutingTopology 0 2 (some 0) 2 = .ok res ∧
      res.candidates ≠ [] ∧
      ∀ c ∈ res.candidates, ∀ remaining,
        ¬ UpDownDerouting.specTableVC [[7]] remaining c.virtual_channel := by
  refine ⟨{ candidates := [CandidateEgress.new 0 0, CandidateEgress.new 0 0],
            idempotent := true }, rfl, by simp, ?_⟩
  intro c hc remaining
  rintro ⟨row, hrow, hmem, -⟩
  have hrow7 : row = [7] := List.mem_singleton.mp hrow
  subst hrow7
  have hvc : c.virtual_channel = 0 := by
    rcases List.mem_cons.mp hc with h | h
    · rw [h]; rfl
    · rw [List.mem_singleton.mp h]; rfl
  rw [hvc] at hmem
  exact absurd (List.mem_singleton.mp hmem) (by decide)

/-! ## C3: credit conservation on `SimpleVirtualChannels` links -/

/-- C3: on every reachable state of a credit-counter link pair built by
`SimpleVirtualChannels` with buffer size `B` (transmissions guarded by
`can_transmit`, one acknowledgement per extracted phit), every per-virtual-
channel credit counter stays within `[0, B]` and the occupied downstream
space plus the available credits equals `B`.  `flit_size ≥ 1` reflects that
a flit holds at least one phit, so a transmission consumes a credit it
owns. -/
theorem C3_credit_conservation (num_virtual_channels buffer_size flit_size : Nat)
    (hflit : 1 ≤ flit_size) (s : LinkState)
    (hreach : LinkReachable num_virtual_channels buffer_size flit_size s) :
    ∀ vc : Nat, 0 ≤ s.status.neighbour_credits vc ∧
      s.status.neighbour_credits vc ≤ (buffer_size : Int) ∧
      s.status.neighbour_credits vc + ((s.space.buffers vc).length : Int) =
        (buffer_size : Int) := by
  have hinv : s.status.flit_size = flit_size ∧
      ∀ vc : Nat, 0 ≤ s.status.neighbour_credits vc ∧
        s.status.neighbour_credits vc + ((s.space.buffers vc).length : Int) =
          (buffer_size : Int) := by
    unfold LinkReachable at hreach
    induction hreach with
    | refl =>
      refine ⟨rfl, fun vc => ?_⟩
      constructor <;> simp [SimpleVirtualChannels.newLink]
    | @tail s1 s2 hsteps hstep ih =>
      obtain ⟨ihf, ihv⟩ := ih
      rcases hstep with ⟨phit, vc', cycle, hvc', hct⟩ |
        ⟨phit, vc', ackvc, space', hvc', hex⟩
      · have hge : (1 : Int) ≤ s1.status.neighbour_credits vc' := by
          unfold CreditCounterVector.can_transmit at hct
          have hct' := of_decide_eq_true hct
          rw [ihf] at hct'
          rcases Bool.eq_false_or_eq_true phit.is_begin with hb | hb
          · rw [hb] at hct'
            simp only [if_pos] at hct'
            have h1 : (1 : Int) ≤ (flit_size : Int) := by exact_mod_cast hflit
            exact le_trans h1 hct'
          · rw [hb] at hct'
            simp only [Bool.false_eq_true, if_false] at hct'
            exact_mod_cast hct'
        refine ⟨ihf, fun vc => ?_⟩
        by_cases hv : vc = vc'
        · subst hv
          obtain ⟨hnn, hsum⟩ := ihv vc
          simp only [CreditCounterVector.notify_outcoming_phit, ParallelBuffers.insert,
            updateVec, if_pos, List.length_append, List.length_singleton]
          push_cast
          constructor
          · linarith
          · linarith
        · obtain ⟨hnn, hsum⟩ := ihv vc
          simp only [CreditCounterVector.notify_outcoming_phit, ParallelBuffers.insert,
            updateVec, if_neg hv]
          exact ⟨hnn, hsum⟩
      · unfold ParallelBuffers.extract at hex
        rcases hbuf : s1.space.buffers vc' with _ | ⟨p, rest⟩
        · rw [hbuf] at hex
          cases hex
        · rw [hbuf] at hex
          cases hex
          refine ⟨ihf, fun vc => ?_⟩
          by_cases hv : vc = vc'
          · subst hv
            obtain ⟨hnn, hsum⟩ := ihv vc
            rw [hbuf] at hsum
            simp only [CreditCounterVector.acknowledge, updateVec, if_pos,
              List.length_cons] at hsum ⊢
            push_cast at hsum ⊢
            constructor
            · linarith
            · linarith
          · obtain ⟨hnn, hsum⟩ := ihv vc
            simp only [CreditCounterVector.acknowledge, updateVec, if_neg hv]
            exact ⟨hnn, hsum⟩
  intro vc
  obtain ⟨hnn, hsum⟩ := hinv.2 vc
  have hlen : (0 : Int) ≤ ((s.space.buffers vc).length : Int) := by positivity
  exact ⟨hnn, by linarith, hsum⟩

/-- Witness for `C3_credit_conservation`: the freshly built link with
buffer size 2 and flit size 1, at virtual channel 0. -/
theorem C3_witness :
    0 ≤ (SimpleVirtualChannels.newLink 2 1).status.neighbour_credits 0 ∧
    (SimpleVirtualChannels.newLink 2 1).status.neighbour_credits 0 ≤ (2 : Int) ∧
    (SimpleVirtualChannels.newLink 2 1).status.neighbour_credits 0 +
      (((SimpleVirtualChannels.newLink 2 1).space.buffers 0).length : Int) = (2 : Int) :=
  C3_credit_conservation 1 2 1 (by decide) (SimpleVirtualChannels.newLink 2 1)
    Relation.ReflTransGen.refl 0

/-! ## C1: correctness of the iSLIP allocation -/

/-- Helper: appending a fresh element preserves `Nodup`. -/
theorem nodup_append_singleton {α : Type} (xs : List α) (x : α)
    (h : xs.Nodup) (hx : x ∉ xs) : (xs ++ [x]).Nodup := by
  rw [List.nodup_append]
  exact ⟨h, List.nodup_singleton x, fun b hb hbx =>
    hx (by rw [List.mem_singleton.mp hbx] at hb; exact hb)⟩

/-- Helper: incrementing a pointer leaves the requested indices alone. -/
theorem updateVec_increment_contents (f : Nat → RoundVec) (i j : Nat) :
    ((updateVec f i ((f i).increment_pointer)) j).requested_indices =
      (f j).requested_indices := by
  unfold updateVec RoundVec.increment_pointer
  by_cases h : j = i
  · rw [if_pos h, h]
  · rw [if_neg h]

/-- Helper: sorting a round vector permutes its requested indices. -/
theorem sort_requested_indices_perm (rv : RoundVec) :
    (rv.sort).requested_indices.Perm rv.requested_indices := by
  unfold RoundVec.sort
  exact List.perm_insertionSort _ _

/-- Helper: every index found in the round vectors after `addAll` comes
either from the starting allocator or from one of the added requests. -/
theorem addAll_in_requests (requests : List Request) :
    ∀ (a0 a : ISLIPAllocator), a0.addAll requests = .ok a →
    ∀ c r, r ∈ (a.in_requests c).requested_indices →
      r ∈ (a0.in_requests c).requested_indices ∨ RequestedIn requests c r := by
  induction requests with
  | nil =>
    intro a0 a h c r hr
    unfold ISLIPAllocator.addAll at h
    simp only [List.foldlM_nil] at h
    cases h
    exact Or.inl hr
  | cons q t ih =>
    intro a0 a h c r hr
    unfold ISLIPAllocator.addAll at h
    simp only [List.foldlM_cons] at h
    rcases hq : a0.add_request q with e | a1
    · rw [hq, exceptBindErr] at h
      cases h
    · rw [hq, exceptBindOk] at h
      rcases ih a1 a h c r hr with hin | hreq
      · unfold ISLIPAllocator.add_request at hq
        by_cases hval : a0.is_valid_request q = true
        · rw [hval] at hq
          simp only [Bool.not_true, Bool.false_eq_true, if_false] at hq
          cases hq
          dsimp only [updateVec, RoundVec.add] at hin
          by_cases hc : c = q.client
          · rw [if_pos hc] at hin
            rcases List.mem_append.mp hin with hin | hin
            · rw [hc]
              exact Or.inl hin
            · refine Or.inr ⟨q, List.mem_cons_self q t, ?_, ?_⟩
              · rw [hc]
              · rw [List.mem_singleton.mp hin]
          · rw [if_neg hc] at hin
            exact Or.inl hin
        · have hval' : a0.is_valid_request q = false := Bool.eq_false_iff.mpr hval
          rw [hval'] at hq
          simp only [Bool.not_false, if_true] at hq
          cases hq
      · obtain ⟨req, hmem, hrc, hrr⟩ := hreq
        exact Or.inr ⟨req, List.mem_cons_of_mem q hmem, hrc, hrr⟩

/-- Helper: a grant for a resource implies the resource output was
unmatched and the granted client's input was unmatched. -/
theorem grants_some (a : ISLIPAllocator) (resource client : Nat)
    (h : a.grants resource = some client) :
    a.out_match resource = none ∧ a.in_match client = none := by
  unfold ISLIPAllocator.grants at h
  by_cases hr : resource < a.num_resources
  · rw [if_pos hr] at h
    unfold ISLIPAllocator.grantFor at h
    by_cases hg : ((a.out_match resource).isSome ||
        (a.out_requests resource).requested_indices.isEmpty) = true
    · rw [if_pos hg] at h
      cases h
    · rw [if_neg hg] at h
      simp only [Bool.or_eq_true, not_or] at hg
      constructor
      · exact Option.not_isSome_iff_eq_none.mp hg.1
      · have h1 := List.find?_some h
        exact Option.isNone_iff_eq_none.mp h1
  · rw [if_neg hr] at h
    cases h

/-- Helper: the accept phase preserves the allocator invariants.  `a0` is
the state whose grant vector drives the phase (the state at the start of
the iteration), `gr0` the grants committed before this accept phase.
The invariants: committed grants are mirrored in `in_match`/`out_match`,
client and resource lists are duplicate-free, every grant was requested,
and the request contents are untouched. -/
theorem accept_fold_inv (Req : Nat → Nat → Prop) (a0 : ISLIPAllocator)
    (gr0 : List Request) (islip_iter : Nat)
    (hgr0_in : ∀ g ∈ gr0, (a0.in_match g.client).isSome = true)
    (hgr0_out : ∀ g ∈ gr0, (a0.out_match g.resource).isSome = true)
    (hcont : ∀ c r, r ∈ (a0.in_requests c).requested_indices → Req c r) :
    ∀ (l : List Nat), l.Nodup →
    ∀ (st : ISLIPAllocator × List Request),
    (∀ g ∈ st.2, st.1.in_match g.client = some g.resource) →
    (∀ g ∈ st.2, st.1.out_match g.resource = some g.client) →
    ((st.2.map Request.client).Nodup) →
    ((st.2.map Request.resource).Nodup) →
    (∀ g ∈ st.2, Req g.client g.resource ∧ g.priority = some 0) →
    (∀ c, (st.1.in_requests c).requested_indices = (a0.in_requests c).requested_indices) →
    (∀ g ∈ st.2, g ∈ gr0 ∨ (a0.grants g.resource = some g.client ∧ g.client ∉ l)) →
    ((∀ g ∈ (l.foldl (ISLIPAllocator.acceptClient a0.grants islip_iter) st).2,
        (l.foldl (ISLIPAllocator.acceptClient a0.grants islip_iter) st).1.in_match g.client =
          some g.resource) ∧
     (∀ g ∈ (l.foldl (ISLIPAllocator.acceptClient a0.grants islip_iter) st).2,
        (l.foldl (ISLIPAllocator.acceptClient a0.grants islip_iter) st).1.out_match g.resource =
          some g.client) ∧
     (((l.foldl (ISLIPAllocator.acceptClient a0.grants islip_iter) st).2.map
        Request.client).Nodup) ∧
     (((l.foldl (ISLIPAllocator.acceptClient a0.grants islip_iter) st).2.map
        Request.resource).Nodup) ∧
     (∀ g ∈ (l.foldl (ISLIPAllocator.acceptClient a0.grants islip_iter) st).2,
        Req g.client g.resource ∧ g.priority = some 0) ∧
     (∀ c, ((l.foldl (ISLIPAllocator.acceptClient a0.grants islip_iter) st).1.in_requests
        c).requested_indices = (a0.in_requests c).requested_indices)) := by
  intro l
  induction l with
  | nil =>
    intro _ st h1 h2 h3 h4 h5 h6 h7
    exact ⟨h1, h2, h3, h4, h5, h6⟩
  | cons c rest ih =>
    intro hnd st h1 h2 h3 h4 h5 h6 h7
    have hcnotrest : c ∉ rest := (List.nodup_cons.mp hnd).1
    have hndrest : rest.Nodup := (List.nodup_cons.mp hnd).2
    rw [List.foldl_cons]
    by_cases hemp : ((st.1.in_requests c).requested_indices.isEmpty) = true
    · have hst' : ISLIPAllocator.acceptClient a0.grants islip_iter st c = st := by
        simp [ISLIPAllocator.acceptClient, hemp]
      rw [hst']
      refine ih hndrest st h1 h2 h3 h4 h5 h6 ?_
      intro g hg
      rcases h7 g hg with hg0 | ⟨hgg, hgl⟩
      · exact Or.inl hg0
      · exact Or.inr ⟨hgg, fun hm => hgl (List.mem_cons_of_mem c hm)⟩
    · have hemp' : ((st.1.in_requests c).requested_indices.isEmpty) = false :=
        Bool.eq_false_iff.mpr hemp
      rcases hfind : (st.1.in_requests c).requested_indices.find?
          (fun resource => a0.grants resource == some c) with _ | resource
      · have hst' : ISLIPAllocator.acceptClient a0.grants islip_iter st c = st := by
          simp [ISLIPAllocator.acceptClient, hemp', hfind]
        rw [hst']
        refine ih hndrest st h1 h2 h3 h4 h5 h6 ?_
        intro g hg
        rcases h7 g hg with hg0 | ⟨hgg, hgl⟩
        · exact Or.inl hg0
        · exact Or.inr ⟨hgg, fun hm => hgl (List.mem_cons_of_mem c hm)⟩
      · have hgr : a0.grants resource = some c := by
          have hp := List.find?_some hfind
          exact (beq_iff_eq (a := a0.grants resource) (b := some c)).mp hp
        have hrmem : resource ∈ (st.1.in_requests c).requested_indices :=
          List.mem_of_find?_eq_some hfind
        obtain ⟨hout0, hin0⟩ := grants_some a0 resource c hgr
        have hcnot2 : ∀ g ∈ st.2, g.client ≠ c := by
          intro g hg hgc
          rcases h7 g hg with hg0 | ⟨-, hgl⟩
          · have hsome := hgr0_in g hg0
            rw [hgc, hin0] at hsome
            cases hsome
          · exact hgl (hgc ▸ List.mem_cons_self c rest)
        have hrnot2 : ∀ g ∈ st.2, g.resource ≠ resource := by
          intro g hg hgrr
          rcases h7 g hg with hg0 | ⟨hgg, hgl⟩
          · have hsome := hgr0_out g hg0
            rw [hgrr, hout0] at hsome
            cases hsome
          · rw [hgrr] at hgg
            have hce : g.client = c := by
              have := hgg.symm.trans hgr
              exact Option.some.inj this
            exact hgl (hce ▸ List.mem_cons_self c rest)
        -- the committed step
        have hsnd : (ISLIPAllocator.acceptClient a0.grants islip_iter st c).2 =
            st.2 ++ [{ client := c, resource := resource, priority := some 0 }] := by
          by_cases hit : islip_iter = 0 <;>
            simp [ISLIPAllocator.acceptClient, hemp', hfind, hit]
        have hinm : (ISLIPAllocator.acceptClient a0.grants islip_iter st c).1.in_match =
            updateVec st.1.in_match c (some resource) := by
          by_cases hit : islip_iter = 0 <;>
            simp [ISLIPAllocator.acceptClient, hemp', hfind, hit]
        have houtm : (ISLIPAllocator.acceptClient a0.grants islip_iter st c).1.out_match =
            updateVec st.1.out_match resource (some c) := by
          by_cases hit : islip_iter = 0 <;>
            simp [ISLIPAllocator.acceptClient, hemp', hfind, hit]
        have hreqs : ∀ j, ((ISLIPAllocator.acceptClient a0.grants islip_iter st
            c).1.in_requests j).requested_indices =
            (st.1.in_requests j).requested_indices := by
          intro j
          by_cases hit : islip_iter = 0 <;>
            simp [ISLIPAllocator.acceptClient, hemp', hfind, hit, updateVec_increment_contents]
        refine ih hndrest (ISLIPAllocator.acceptClient a0.grants islip_iter st c)
          ?_ ?_ ?_ ?_ ?_ ?_ ?_
        · intro g hg
          rw [hsnd] at hg
          rw [hinm]
          rcases List.mem_append.mp hg with hg | hg
          · unfold updateVec
            rw [if_neg (hcnot2 g hg)]
            exact h1 g hg
          · rw [List.mem_singleton.mp hg]
            unfold updateVec
            rw [if_pos rfl]
        · intro g hg
          rw [hsnd] at hg
          rw [houtm]
          rcases List.mem_append.mp hg with hg | hg
          · unfold updateVec
            rw [if_neg (hrnot2 g hg)]
            exact h2 g hg
          · rw [List.mem_singleton.mp hg]
            unfold updateVec
            rw [if_pos rfl]
        · rw [hsnd, List.map_append]
          refine nodup_append_singleton _ _ h3 ?_
          intro hmem
          obtain ⟨g, hg, hgc⟩ := List.mem_map.mp hmem
          exact hcnot2 g hg hgc
        · rw [hsnd, List.map_append]
          refine nodup_append_singleton _ _ h4 ?_
          intro hmem
          obtain ⟨g, hg, hgc⟩ := List.mem_map.mp hmem
          exact hrnot2 g hg hgc
        · intro g hg
          rw [hsnd] at hg
          rcases List.mem_append.mp hg with hg | hg
          · exact h5 g hg
          · rw [List.mem_singleton.mp hg]
            refine ⟨?_, rfl⟩
            refine hcont c resource ?_
            rw [← h6 c]
            exact hrmem
        · intro j
          rw [hreqs j, h6 j]
        · intro g hg
          rw [hsnd] at hg
          rcases List.mem_append.mp hg with hg | hg
          · rcases h7 g hg with hg0 | ⟨hgg, hgl⟩
            · exact Or.inl hg0
            · exact Or.inr ⟨hgg, fun hm => hgl (List.mem_cons_of_mem c hm)⟩
          · rw [List.mem_singleton.mp hg]
            exact Or.inr ⟨hgr, hcnotrest⟩

/-- Helper: one grant/accept iteration preserves the allocator
invariants. -/
theorem iteration_inv (Req : Nat → Nat → Prop) (st : ISLIPAllocator × List Request)
    (islip_iter : Nat)
    (h1 : ∀ g ∈ st.2, st.1.in_match g.client = some g.resource)
    (h2 : ∀ g ∈ st.2, st.1.out_match g.resource = some g.client)
    (h3 : (st.2.map Request.client).Nodup)
    (h4 : (st.2.map Request.resource).Nodup)
    (h5 : ∀ g ∈ st.2, Req g.client g.resource ∧ g.priority = some 0)
    (h6 : ∀ c r, r ∈ (st.1.in_requests c).requested_indices → Req c r) :
    (∀ g ∈ (ISLIPAllocator.iteration st islip_iter).2,
      (ISLIPAllocator.iteration st islip_iter).1.in_match g.client = some g.resource) ∧
    (∀ g ∈ (ISLIPAllocator.iteration st islip_iter).2,
      (ISLIPAllocator.iteration st islip_iter).1.out_match g.resource = some g.client) ∧
    (((ISLIPAllocator.iteration st islip_iter).2.map Request.client).Nodup) ∧
    (((ISLIPAllocator.iteration st islip_iter).2.map Request.resource).Nodup) ∧
    (∀ g ∈ (ISLIPAllocator.iteration st islip_iter).2,
      Req g.client g.resource ∧ g.priority = some 0) ∧
    (∀ c r, r ∈ ((ISLIPAllocator.iteration st islip_iter).1.in_requests c).requested_indices →
      Req c r) := by
  obtain ⟨f1, f2, f3, f4, f5, f6⟩ := accept_fold_inv Req st.1 st.2 islip_iter
    (fun g hg => by rw [h1 g hg]; rfl)
    (fun g hg => by rw [h2 g hg]; rfl)
    h6 (List.range st.1.num_clients) (List.nodup_range _) st
    h1 h2 h3 h4 h5 (fun c => rfl) (fun g hg => Or.inl hg)
  unfold ISLIPAllocator.iteration
  exact ⟨f1, f2, f3, f4, f5, fun c r hr => h6 c r (by rw [← f6 c]; exact hr)⟩

/-- Helper: any number of grant/accept iterations preserves the allocator
invariants. -/
theorem iterations_inv (Req : Nat → Nat → Prop) (its : List Nat) :
    ∀ (st : ISLIPAllocator × List Request),
    (∀ g ∈ st.2, st.1.in_match g.client = some g.resource) →
    (∀ g ∈ st.2, st.1.out_match g.resource = some g.client) →
    ((st.2.map Request.client).Nodup) →
    ((st.2.map Request.resource).Nodup) →
    (∀ g ∈ st.2, Req g.client g.resource ∧ g.priority = some 0) →
    (∀ c r, r ∈ (st.1.in_requests c).requested_indices → Req c r) →
    ((∀ g ∈ (its.foldl ISLIPAllocator.iteration st).2,
        (its.foldl ISLIPAllocator.iteration st).1.in_match g.client = some g.resource) ∧
     (∀ g ∈ (its.foldl ISLIPAllocator.iteration st).2,
        (its.foldl ISLIPAllocator.iteration st).1.out_match g.resource = some g.client) ∧
     (((its.foldl ISLIPAllocator.iteration st).2.map Request.client).Nodup) ∧
     (((its.foldl ISLIPAllocator.iteration st).2.map Request.resource).Nodup) ∧
     (∀ g ∈ (its.foldl ISLIPAllocator.iteration st).2,
        Req g.client g.resource ∧ g.priority = some 0) ∧
     (∀ c r, r ∈ ((its.foldl ISLIPAllocator.iteration st).1.in_requests
        c).requested_indices → Req c r)) := by
  induction its with
  | nil =>
    intro st h1 h2 h3 h4 h5 h6
    exact ⟨h1, h2, h3, h4, h5, h6⟩
  | cons it rest ih =>
    intro st h1 h2 h3 h4 h5 h6
    rw [List.foldl_cons]
    obtain ⟨f1, f2, f3, f4, f5, f6⟩ := iteration_inv Req st it h1 h2 h3 h4 h5 h6
    exact ih (ISLIPAllocator.iteration st it) f1 f2 f3 f4 f5 f6

/-- C1: after `perform_allocation`, every granted `(c, r)` was added by
`add_request` since the allocator was built, each client appears in at
most one granted request and each resource appears in at most one granted
request. -/
theorem C1_islip_allocation (num_clients num_resources num_iterations : Nat)
    (requests : List Request) (a : ISLIPAllocator) (gr : List Request)
    (afinal : ISLIPAllocator)
    (hadd : (ISLIPAllocator.new num_clients num_resources
      num_iterations).addAll requests = .ok a)
    (hperf : a.perform_allocation = (gr, afinal)) :
    (∀ g ∈ gr, RequestedIn requests g.client g.resource) ∧
    ((gr.map Request.client).Nodup) ∧
    ((gr.map Request.resource).Nodup) := by
  unfold ISLIPAllocator.perform_allocation at hperf
  dsimp only at hperf
  rw [Prod.mk.injEq] at hperf
  obtain ⟨hgr, -⟩ := hperf
  have hcont : ∀ c r,
      r ∈ ((a.sortAll.resetMatches).in_requests c).requested_indices →
      RequestedIn requests c r := by
    intro c r hr
    have hr1 : r ∈ ((a.sortAll).in_requests c).requested_indices := hr
    unfold ISLIPAllocator.sortAll at hr1
    dsimp only at hr1
    have hr2 : r ∈ (a.in_requests c).requested_indices := by
      by_cases hc : c < a.num_clients
      · rw [if_pos hc] at hr1
        exact (sort_requested_indices_perm (a.in_requests c)).mem_iff.mp hr1
      · rw [if_neg hc] at hr1
        exact hr1
    rcases addAll_in_requests requests _ a hadd c r hr2 with hin | hreq
    · exact absurd hin (by simp [ISLIPAllocator.new, RoundVec.new])
    · exact hreq
  obtain ⟨-, -, f3, f4, f5, -⟩ := iterations_inv (RequestedIn requests)
    (List.range (a.sortAll.resetMatches).num_iterations)
    (a.sortAll.resetMatches, [])
    (fun g hg => absurd hg (List.not_mem_nil g))
    (fun g hg => absurd hg (List.not_mem_nil g))
    (by simp) (by simp)
    (fun g hg => absurd hg (List.not_mem_nil g))
    hcont
  rw [hgr] at f3 f4 f5
  exact ⟨fun g hg => (f5 g hg).1, f3, f4⟩

/-- Witness for `C1_islip_allocation`: on the 4×4 scenario the granted
requests `{(0,0),(1,2),(3,3)}` were all requested, with duplicate-free
clients and resources. -/
theorem C1_witness :
    ∃ (A : ISLIPAllocator) (gr : List Request) (afinal : ISLIPAllocator),
      (ISLIPAllocator.new 4 4 1).addAll islipExampleRequests = .ok A ∧
      A.perform_allocation = (gr, afinal) ∧
      (∀ g ∈ gr, RequestedIn islipExampleRequests g.client g.resource) ∧
      ((gr.map Request.client).Nodup) ∧
      ((gr.map Request.resource).Nodup) := by
  obtain ⟨A, hA⟩ : ∃ A, (ISLIPAllocator.new 4 4 1).addAll islipExampleRequests = .ok A :=
    ⟨_, rfl⟩
  exact ⟨A, A.perform_allocation.1, A.perform_allocation.2, hA, rfl,
    C1_islip_allocation 4 4 1 islipExampleRequests A A.perform_allocation.1
      A.perform_allocation.2 hA rfl⟩

end Caminos
